import Mathlib

/-
Verification development for the x86-to-MLIR lowering engine of this
repository (src/xdsl/tools/convert_x86_to_mlir.py).  The Python source is
shallowly embedded below: the lark parse tree becomes the inductive
`PTree`, Python dictionaries (which preserve insertion order) become
ordered association lists, SSA values become the opaque handles `SSAVal`,
and every Python exception that can escape the converter is a `PyError`
(`x86ConversionError` for the converter's own error class, `keyError` and
`indexError` for built-in exceptions that escape untranslated).
-/

set_option autoImplicit false
set_option maxHeartbeats 2000000

namespace X86

/-- Lark parse tree node: a `Token` carries its terminal type and text,
a `ParseTree` carries its rule name (`data`) and children. -/
inductive PTree where
  | tok (ttype : String) (value : String)
  | node (data : String) (children : List PTree)

/-- Opaque SSA value handle: either a block argument (block index, argument
index) or a result of the n-th operation created while lowering a block. -/
inductive SSAVal where
  | blockArg (block : Nat) (idx : Nat)
  | opResult (op : Nat) (idx : Nat)
deriving DecidableEq

/-- Errors that can escape conversion.  `x86ConversionError` models the
repository's `X86ConversionError`; `keyError` and `indexError` model the
Python built-in exceptions that the source can raise untranslated. -/
inductive PyError where
  | x86ConversionError (msg : String)
  | keyError (key : String)
  | indexError
deriving DecidableEq

/-- Operand classification, from `OperandType` in the source. -/
inductive OperandType where
  | REG
  | MEM
  | IMM
deriving DecidableEq

/-- The IR operations the converter constructs.  Data operations record the
instruction-type string computed by `parse_instruction_type`, the opcode,
the SSA operands, the decoded memory operand and immediate, and the id used
for their result values. -/
inductive IROp where
  | labelOp (name : String)
  | retOp
  | jmpOp (blockValues : List SSAVal) (successor : Nat)
  | condJumpOp (opcode : String) (rflags : SSAVal) (thenValues elseValues : List SSAVal)
      (thenBlock elseBlock : Nat)
  | fallthroughOp (blockValues : List SSAVal) (successor : Nat)
  | dataOp (itype : String) (opcode : String) (regOperands : List SSAVal)
      (memOperand : Option (SSAVal × Int)) (immOperand : Option Int) (opId : Nat)
deriving DecidableEq

/-- Ordered association list modelling a Python `dict` (insertion order is
observable through `dict.values()`). -/
abbrev Dict (α : Type) : Type := List (String × α)

/-- Lookup in a Python dict; `none` models a `KeyError` site. -/
def dictGet? {α : Type} : Dict α → String → Option α
  | [], _ => none
  | (k', v) :: rest, k => if k' = k then some v else dictGet? rest k

/-- Assignment `d[k] = v` in a Python dict: overwriting keeps the key's
position, a new key is appended at the end. -/
def dictSet {α : Type} : Dict α → String → α → Dict α
  | [], k, v => [(k, v)]
  | (k', v') :: rest, k, v =>
      if k' = k then (k, v) :: rest else (k', v') :: dictSet rest k v

/-- Keys of a dict in insertion order. -/
def dictKeys {α : Type} (d : Dict α) : List String := d.map (fun p => p.1)

/-- Values of a dict in insertion order, modelling `list(d.values())`. -/
def dictValues {α : Type} (d : Dict α) : List α := d.map (fun p => p.2)

/-- Modelled from the spec: the table `X86_INDEX_BY_NAME` lives in
`xdsl/dialects/x86/registers.py`, which is not among the provided sources;
the spec fixes a canonical order over the 16 general-purpose registers
(section 3), realised here by the standard x86-64 encoding order. -/
def GPR_NAMES : List String :=
  ["rax", "rcx", "rdx", "rbx", "rsp", "rbp", "rsi", "rdi",
   "r8", "r9", "r10", "r11", "r12", "r13", "r14", "r15"]

/-- The 30 condition-coded jump mnemonics, keys of `CONDITIONAL_JUMP_OPS`. -/
def COND_JUMP_NAMES : List String :=
  ["jae", "ja", "jbe", "jb", "jc", "je", "jge", "jg", "jle", "jl",
   "jnae", "jna", "jnbe", "jnb", "jnc", "jne", "jnge", "jng", "jnle", "jnl",
   "jno", "jnp", "jns", "jnz", "jo", "jpe", "jpo", "jp", "js", "jz"]

/-- Arithmetic opcodes shared by several instruction-type branches. -/
def ARITH_OPS : List String := ["add", "sub", "and", "xor", "or"]

/-- Lowercasing as Python `str.lower()` on the ASCII mnemonics and register
names of this grammar: each character is lowered individually.  (Defined by
structural recursion over the character list so that concrete programs
evaluate inside the kernel.) -/
def pyLower (s : String) : String := String.mk (s.data.map Char.toLower)

/-- Transcription of `is_jump_instruction`; accessing `children[0]` of a
childless node raises `IndexError` in Python. -/
def is_jump_instruction : PTree → Except PyError Bool
  | .tok _ _ => .ok false
  | .node _ [] => .error .indexError
  | .node _ (.node _ _ :: _) => .ok false
  | .node _ (.tok _ v :: _) =>
      .ok ((pyLower v) == "jmp" || COND_JUMP_NAMES.contains (pyLower v))

/-- Transcription of `is_terminating_instruction`. -/
def is_terminating_instruction (t : PTree) : Except PyError Bool := do
  if (← is_jump_instruction t) then
    pure true
  else
    match t with
    | .tok _ _ => pure false
    | .node _ [] => .error .indexError
    | .node _ (.node _ _ :: _) => pure false
    | .node _ (.tok _ v :: _) => pure ((pyLower v) == "ret")

/-- State of `get_basic_blocks`: Python's `blocks` list is `closed ++ [curr]`
(the last element is the open accumulator), plus the label table. -/
structure SplitState where
  closed : List (List PTree)
  curr : List PTree
  labelMap : Dict Nat

/-- Initial splitter state, `blocks = [[]]` and an empty label table. -/
def initSplit : SplitState := ⟨[], [], []⟩

/-- One iteration of the loop body of `get_basic_blocks`. -/
def splitStep (st : SplitState) (p : PTree) : Except PyError SplitState := do
  match p with
  | .tok _ _ => .error (.x86ConversionError "Invalid code structure")
  | .node d children =>
    let st1 ←
      if d == "label" then
        match children with
        | [] => Except.error PyError.indexError
        | PTree.node _ _ :: _ =>
            Except.error (PyError.x86ConversionError "Invalid code structure")
        | PTree.tok _ name :: _ =>
            let closed1 := if st.curr.isEmpty then st.closed else st.closed ++ [st.curr]
            pure (SplitState.mk closed1 [] (dictSet st.labelMap name closed1.length))
      else
        pure st
    let st2 : SplitState := { st1 with curr := st1.curr ++ [p] }
    if (← is_terminating_instruction p) then
      pure { st2 with closed := st2.closed ++ [st2.curr], curr := [] }
    else
      pure st2

/-- The statement loop of `get_basic_blocks`. -/
def splitRun : List PTree → SplitState → Except PyError SplitState
  | [], st => .ok st
  | p :: ps, st => do splitRun ps (← splitStep st p)

/-- Transcription of `X86Converter.get_basic_blocks`, acting on the child
list of the program node; returns the partition and the label table.  A
trailing empty block is discarded at the end. -/
def get_basic_blocks (stmts : List PTree) :
    Except PyError (List (List PTree) × Dict Nat) := do
  let st ← splitRun stmts initSplit
  pure (if st.curr.isEmpty then st.closed else st.closed ++ [st.curr], st.labelMap)

/-- Parse a decimal integer with an optional sign, modelling Python `int`. -/
def digitsVal? (cs : List Char) : Option Nat :=
  match cs with
  | [] => none
  | _ => cs.foldl
      (fun acc c =>
        match acc with
        | none => none
        | some n => if c.isDigit then some (n * 10 + (c.toNat - 48)) else none)
      (some 0)

/-- Integer literal parsing used by `int(...)` on operand text. -/
def parseInt? (s : String) : Option Int :=
  match s.toList with
  | '+' :: rest => (digitsVal? rest).map Int.ofNat
  | '-' :: rest => (digitsVal? rest).map (fun n => -(Int.ofNat n))
  | cs => (digitsVal? cs).map Int.ofNat

/-- Transcription of `X86Converter.get_immediate_operand`. -/
def get_immediate_operand (operand : PTree) : Except PyError Int :=
  match operand with
  | .node _ _ => .error (.x86ConversionError "Invalid immediate operand")
  | .tok _ v =>
      match parseInt? v with
      | some n => .ok n
      | none => .error (.x86ConversionError ("Invalid immediate operand " ++ v))

/-- Transcription of `X86Converter.get_memory_operand`.  The base register's
current value is fetched with a bare dict subscript, so an untracked base
name raises `KeyError`.  The error message on an unparsable magnitude
interpolates the still-zero `offset` variable, as in the source. -/
def get_memory_operand (regs : Dict SSAVal) (operand : PTree) :
    Except PyError (SSAVal × Int) :=
  match operand with
  | .tok _ _ => .error (.x86ConversionError "Invalid memory operand")
  | .node _ [.tok _ base] =>
      match dictGet? regs (pyLower base) with
      | some v => .ok (v, 0)
      | none => .error (.keyError (pyLower base))
  | .node _ [.tok _ base, c1, c2] =>
      match dictGet? regs (pyLower base) with
      | some v =>
          match c1 with
          | .node _ _ => .error (.x86ConversionError "Invalid memory operand")
          | .tok _ s =>
              match c2 with
              | .node _ _ => .error (.x86ConversionError "Invalid memory operand")
              | .tok _ mag =>
                  match parseInt? mag with
                  | some m => .ok (v, if s == "+" then m else -m)
                  | none => .error (.x86ConversionError "Invalid memory offset 0")
      | none => .error (.keyError (pyLower base))
  | .node _ [_] => .error (.x86ConversionError "Invalid memory operand")
  | .node _ [_, _, _] => .error (.x86ConversionError "Invalid memory operand")
  | .node _ _ => .error (.x86ConversionError "Invalid memory operand")

/-- Transcription of `X86Converter.get_dest_register_type` (the returned
register type is represented by the token text). -/
def get_dest_register_type (operand : PTree) : Except PyError String :=
  match operand with
  | .tok _ v =>
      if GPR_NAMES.contains (pyLower v) then .ok v
      else .error (.x86ConversionError "Invalid register operand")
  | .node _ _ => .error (.x86ConversionError "Invalid register operand")

/-- Transcription of `X86Converter.get_source_register`. -/
def get_source_register (regs : Dict SSAVal) (operand : PTree) :
    Except PyError SSAVal :=
  match operand with
  | .tok _ v =>
      if GPR_NAMES.contains (pyLower v) then
        match dictGet? regs (pyLower v) with
        | some r => .ok r
        | none => .error (.keyError (pyLower v))
      else .error (.x86ConversionError "Invalid register operand")
  | .node _ _ => .error (.x86ConversionError "Invalid register operand")

/-- Transcription of `X86Converter.set_destination_register`. -/
def set_destination_register (regs : Dict SSAVal) (operand : PTree) (v : SSAVal) :
    Except PyError (Dict SSAVal) :=
  match operand with
  | .tok _ r =>
      if GPR_NAMES.contains (pyLower r) then .ok (dictSet regs (pyLower r) v)
      else .error (.x86ConversionError "Invalid register operand")
  | .node _ _ => .error (.x86ConversionError "Invalid register operand")

/-- Transcription of `X86Converter.parse_operand_types`. -/
def parse_operand_types : List PTree → Except PyError (List OperandType)
  | [] => .ok []
  | .tok t _ :: rest =>
      if t == "REG" then do
        pure (.REG :: (← parse_operand_types rest))
      else if t == "IMM" then do
        pure (.IMM :: (← parse_operand_types rest))
      else
        .error (.x86ConversionError "Data instruction cannot have label operand")
  | .node _ _ :: rest => do
      pure (.MEM :: (← parse_operand_types rest))

/-- Transcription of `X86Converter.parse_instruction_type`, the fixed
(opcode, shape) allow-table.  The opcode argument is already lowercased. -/
def parse_instruction_type (opcode : String) (operands : List PTree) :
    Except PyError String := do
  let invalid : Except PyError String :=
    .error (.x86ConversionError "Invalid combination of opcode and operands")
  match (← parse_operand_types operands) with
  | [.REG, .REG] =>
      if ARITH_OPS.contains opcode then pure "RS"
      else if opcode == "mov" then pure "DS"
      else if opcode == "cmp" then pure "SS"
      else invalid
  | [.REG, .MEM] =>
      if ARITH_OPS.contains opcode then pure "RM"
      else if opcode == "lea" || opcode == "mov" then pure "DM"
      else if opcode == "cmp" then pure "SM"
      else invalid
  | [.REG, .IMM] =>
      if ARITH_OPS.contains opcode then pure "RI"
      else if opcode == "mov" then pure "DI"
      else if opcode == "cmp" then pure "SI"
      else invalid
  | [.MEM, .REG] =>
      if ARITH_OPS.contains opcode || opcode == "cmp" || opcode == "mov" then pure "MS"
      else invalid
  | [.MEM, .IMM] =>
      if ARITH_OPS.contains opcode || opcode == "cmp" || opcode == "mov" then pure "MI"
      else invalid
  | [.REG] =>
      if ["dec", "inc", "neg", "not"].contains opcode then pure "R"
      else if opcode == "push" then pure "S"
      else if opcode == "pop" then pure "D"
      else invalid
  | [.MEM] =>
      if ["dec", "inc", "neg", "not", "push", "pop"].contains opcode then pure "M"
      else invalid
  | [] => if opcode == "ret" then pure "C" else invalid
  | _ => invalid

/-- Register tracker plus the counter generating fresh operation ids for a
block (operation identity in Python; result j of the op with id i is
`SSAVal.opResult i j`). -/
structure LowerState where
  regs : Dict SSAVal
  nextOp : Nat
deriving DecidableEq

/-- Branch `case "RS"` of `parse_instruction`. -/
def parse_RS (st : LowerState) (opcode : String) (o1 o2 : PTree) :
    Except PyError (IROp × LowerState) := do
  let opId := st.nextOp
  let dest ← get_source_register st.regs o1
  let source ← get_source_register st.regs o2
  if ARITH_OPS.contains opcode then
    let op := IROp.dataOp "RS" opcode [dest, source] none none opId
    let regs ← set_destination_register st.regs o1 (.opResult opId 0)
    pure (op, ⟨regs, opId + 1⟩)
  else .error (.x86ConversionError ("Invalid opcode " ++ opcode))

/-- Branch `case "DS"` of `parse_instruction`. -/
def parse_DS (st : LowerState) (opcode : String) (o1 o2 : PTree) :
    Except PyError (IROp × LowerState) := do
  let opId := st.nextOp
  let _ ← get_dest_register_type o1
  let source ← get_source_register st.regs o2
  let op := IROp.dataOp "DS" opcode [source] none none opId
  let regs ← set_destination_register st.regs o1 (.opResult opId 0)
  pure (op, ⟨regs, opId + 1⟩)

/-- Branch `case "SS"` of `parse_instruction`. -/
def parse_SS (st : LowerState) (opcode : String) (o1 o2 : PTree) :
    Except PyError (IROp × LowerState) := do
  let opId := st.nextOp
  let source1 ← get_source_register st.regs o1
  let source2 ← get_source_register st.regs o2
  let op := IROp.dataOp "SS" opcode [source1, source2] none none opId
  pure (op, ⟨dictSet st.regs "rflags" (.opResult opId 0), opId + 1⟩)

/-- Branch `case "RM"` of `parse_instruction`. -/
def parse_RM (st : LowerState) (opcode : String) (o1 o2 : PTree) :
    Except PyError (IROp × LowerState) := do
  let opId := st.nextOp
  let dest ← get_source_register st.regs o1
  let mem ← get_memory_operand st.regs o2
  if ARITH_OPS.contains opcode then
    let op := IROp.dataOp "RM" opcode [dest] (some mem) none opId
    let regs ← set_destination_register st.regs o1 (.opResult opId 0)
    pure (op, ⟨regs, opId + 1⟩)
  else .error (.x86ConversionError ("Invalid opcode " ++ opcode))

/-- Branch `case "DM"` of `parse_instruction`. -/
def parse_DM (st : LowerState) (opcode : String) (o1 o2 : PTree) :
    Except PyError (IROp × LowerState) := do
  let opId := st.nextOp
  let _ ← get_dest_register_type o1
  let mem ← get_memory_operand st.regs o2
  if opcode == "mov" || opcode == "lea" then
    let op := IROp.dataOp "DM" opcode [] (some mem) none opId
    let regs ← set_destination_register st.regs o1 (.opResult opId 0)
    pure (op, ⟨regs, opId + 1⟩)
  else .error (.x86ConversionError ("Invalid opcode " ++ opcode))

/-- Branch `case "SM"` of `parse_instruction`. -/
def parse_SM (st : LowerState) (opcode : String) (o1 o2 : PTree) :
    Except PyError (IROp × LowerState) := do
  let opId := st.nextOp
  let source ← get_source_register st.regs o1
  let mem ← get_memory_operand st.regs o2
  let op := IROp.dataOp "SM" opcode [source] (some mem) none opId
  pure (op, ⟨dictSet st.regs "rflags" (.opResult opId 0), opId + 1⟩)

/-- Branch `case "RI"` of `parse_instruction`. -/
def parse_RI (st : LowerState) (opcode : String) (o1 o2 : PTree) :
    Except PyError (IROp × LowerState) := do
  let opId := st.nextOp
  let dest ← get_source_register st.regs o1
  let imm ← get_immediate_operand o2
  if ARITH_OPS.contains opcode then
    let op := IROp.dataOp "RI" opcode [dest] none (some imm) opId
    let regs ← set_destination_register st.regs o1 (.opResult opId 0)
    pure (op, ⟨regs, opId + 1⟩)
  else .error (.x86ConversionError ("Invalid opcode " ++ opcode))

/-- Branch `case "DI"` of `parse_instruction`. -/
def parse_DI (st : LowerState) (opcode : String) (o1 o2 : PTree) :
    Except PyError (IROp × LowerState) := do
  let opId := st.nextOp
  let _ ← get_dest_register_type o1
  let imm ← get_immediate_operand o2
  let op := IROp.dataOp "DI" opcode [] none (some imm) opId
  let regs ← set_destination_register st.regs o1 (.opResult opId 0)
  pure (op, ⟨regs, opId + 1⟩)

/-- Branch `case "SI"` of `parse_instruction`. -/
def parse_SI (st : LowerState) (opcode : String) (o1 o2 : PTree) :
    Except PyError (IROp × LowerState) := do
  let opId := st.nextOp
  let source ← get_source_register st.regs o1
  let imm ← get_immediate_operand o2
  let op := IROp.dataOp "SI" opcode [source] none (some imm) opId
  pure (op, ⟨dictSet st.regs "rflags" (.opResult opId 0), opId + 1⟩)

/-- Branch `case "MS"` of `parse_instruction`: on a non-compare opcode the
source ends by calling `set_destination_register` on the memory operand
node `o1`. -/
def parse_MS (st : LowerState) (opcode : String) (o1 o2 : PTree) :
    Except PyError (IROp × LowerState) := do
  let opId := st.nextOp
  let mem ← get_memory_operand st.regs o1
  let source ← get_source_register st.regs o2
  if ARITH_OPS.contains opcode || opcode == "mov" || opcode == "cmp" then
    let op := IROp.dataOp "MS" opcode [source] (some mem) none opId
    if opcode == "cmp" then
      pure (op, ⟨dictSet st.regs "rflags" (.opResult opId 0), opId + 1⟩)
    else
      let regs ← set_destination_register st.regs o1 (.opResult opId 0)
      pure (op, ⟨regs, opId + 1⟩)
  else .error (.x86ConversionError ("Invalid opcode " ++ opcode))

/-- Branch `case "MI"` of `parse_instruction`. -/
def parse_MI (st : LowerState) (opcode : String) (o1 o2 : PTree) :
    Except PyError (IROp × LowerState) := do
  let opId := st.nextOp
  let mem ← get_memory_operand st.regs o1
  let imm ← get_immediate_operand o2
  if ARITH_OPS.contains opcode || opcode == "mov" || opcode == "cmp" then
    let op := IROp.dataOp "MI" opcode [] (some mem) (some imm) opId
    if opcode == "cmp" then
      pure (op, ⟨dictSet st.regs "rflags" (.opResult opId 0), opId + 1⟩)
    else
      pure (op, ⟨st.regs, opId + 1⟩)
  else .error (.x86ConversionError ("Invalid opcode " ++ opcode))

/-- Branch `case "R"` of `parse_instruction`. -/
def parse_R (st : LowerState) (opcode : String) (o1 : PTree) :
    Except PyError (IROp × LowerState) := do
  let opId := st.nextOp
  let dest ← get_source_register st.regs o1
  if ["dec", "inc", "neg", "not"].contains opcode then
    let op := IROp.dataOp "R" opcode [dest] none none opId
    let regs ← set_destination_register st.regs o1 (.opResult opId 0)
    pure (op, ⟨regs, opId + 1⟩)
  else .error (.x86ConversionError ("Invalid opcode " ++ opcode))

/-- Branch `case "D"` of `parse_instruction` (pop into a register: writes
the new stack pointer and the destination register). -/
def parse_D (st : LowerState) (opcode : String) (o1 : PTree) :
    Except PyError (IROp × LowerState) := do
  let opId := st.nextOp
  let rspIn ←
    match dictGet? st.regs "rsp" with
    | some v => pure v
    | none => Except.error (PyError.keyError "rsp")
  let _ ← get_dest_register_type o1
  let op := IROp.dataOp "D" opcode [rspIn] none none opId
  let regs1 := dictSet st.regs "rsp" (.opResult opId 0)
  let regs ← set_destination_register regs1 o1 (.opResult opId 1)
  pure (op, ⟨regs, opId + 1⟩)

/-- Branch `case "S"` of `parse_instruction` (push from a register). -/
def parse_S (st : LowerState) (opcode : String) (o1 : PTree) :
    Except PyError (IROp × LowerState) := do
  let opId := st.nextOp
  let rspIn ←
    match dictGet? st.regs "rsp" with
    | some v => pure v
    | none => Except.error (PyError.keyError "rsp")
  let source ← get_source_register st.regs o1
  let op := IROp.dataOp "S" opcode [rspIn, source] none none opId
  pure (op, ⟨dictSet st.regs "rsp" (.opResult opId 0), opId + 1⟩)

/-- Branch `case "M"` of `parse_instruction` (unary or stack operation on a
memory operand; the stack pointer is read before dispatching on the
opcode). -/
def parse_M (st : LowerState) (opcode : String) (o1 : PTree) :
    Except PyError (IROp × LowerState) := do
  let opId := st.nextOp
  let mem ← get_memory_operand st.regs o1
  let rspIn ←
    match dictGet? st.regs "rsp" with
    | some v => pure v
    | none => Except.error (PyError.keyError "rsp")
  if ["dec", "inc", "neg", "not"].contains opcode then
    pure (IROp.dataOp "M" opcode [] (some mem) none opId, ⟨st.regs, opId + 1⟩)
  else if opcode == "push" || opcode == "pop" then
    let op := IROp.dataOp "M" opcode [rspIn] (some mem) none opId
    pure (op, ⟨dictSet st.regs "rsp" (.opResult opId 0), opId + 1⟩)
  else .error (.x86ConversionError ("Invalid opcode " ++ opcode))

/-- Branch `case "C"` of `parse_instruction`. -/
def parse_C (st : LowerState) (opcode : String) :
    Except PyError (IROp × LowerState) :=
  if opcode == "ret" then .ok (IROp.retOp, st)
  else .error (.x86ConversionError ("Invalid opcode " ++ opcode))

/-- Transcription of `X86Converter.parse_instruction`, acting on the child
list of the instruction node.  Each arm of the Python `match` on the
instruction type is transcribed as one of the `parse_XX` branch functions
above; in Python each branch constructs one IR operation, and branches
differing only in the operation class chosen by the opcode are transcribed
with a membership test on the same opcode set, the opcode being recorded in
the operation. -/
def parse_instruction (st : LowerState) (children : List PTree) :
    Except PyError (IROp × LowerState) := do
  match children with
  | [] => .error .indexError
  | .node _ _ :: _ =>
      .error (.x86ConversionError "Instruction should start with opcode token")
  | .tok _ opv :: operands =>
    let opcode := (pyLower opv)
    let itype ← parse_instruction_type opcode operands
    match itype with
    | "RS" =>
        match operands with
        | [o1, o2] => parse_RS st opcode o1 o2
        | _ => .error .indexError
    | "DS" =>
        match operands with
        | [o1, o2] => parse_DS st opcode o1 o2
        | _ => .error .indexError
    | "SS" =>
        match operands with
        | [o1, o2] => parse_SS st opcode o1 o2
        | _ => .error .indexError
    | "RM" =>
        match operands with
        | [o1, o2] => parse_RM st opcode o1 o2
        | _ => .error .indexError
    | "DM" =>
        match operands with
        | [o1, o2] => parse_DM st opcode o1 o2
        | _ => .error .indexError
    | "SM" =>
        match operands with
        | [o1, o2] => parse_SM st opcode o1 o2
        | _ => .error .indexError
    | "RI" =>
        match operands with
        | [o1, o2] => parse_RI st opcode o1 o2
        | _ => .error .indexError
    | "DI" =>
        match operands with
        | [o1, o2] => parse_DI st opcode o1 o2
        | _ => .error .indexError
    | "SI" =>
        match operands with
        | [o1, o2] => parse_SI st opcode o1 o2
        | _ => .error .indexError
    | "MS" =>
        match operands with
        | [o1, o2] => parse_MS st opcode o1 o2
        | _ => .error .indexError
    | "MI" =>
        match operands with
        | [o1, o2] => parse_MI st opcode o1 o2
        | _ => .error .indexError
    | "R" =>
        match operands with
        | [o1] => parse_R st opcode o1
        | _ => .error .indexError
    | "D" =>
        match operands with
        | [o1] => parse_D st opcode o1
        | _ => .error .indexError
    | "S" =>
        match operands with
        | [o1] => parse_S st opcode o1
        | _ => .error .indexError
    | "M" =>
        match operands with
        | [o1] => parse_M st opcode o1
        | _ => .error .indexError
    | "C" => parse_C st opcode
    | _ => .error (.x86ConversionError ("Invalid opcode " ++ opcode))

/-- Transcription of `X86Converter.parse_jump`, acting on the child list of
the jump instruction node.  The conditional-jump constructor is looked up in
`CONDITIONAL_JUMP_OPS` before its keyword arguments are evaluated, and the
flags value is fetched with a bare dict subscript, so a missing entry
raises `KeyError`. -/
def parse_jump (labelMap : Dict Nat) (numBlocks : Nat) (st : LowerState)
    (children : List PTree) (blockIndex : Nat) : Except PyError (IROp × LowerState) :=
  match children with
  | [] => .error .indexError
  | .node _ _ :: _ =>
      .error (.x86ConversionError "Instruction should start with opcode token")
  | .tok _ opv :: rest =>
    let opcode := (pyLower opv)
    if rest.length != 1 then
      .error (.x86ConversionError "Jump instruction must have one operand")
    else
      match rest with
      | [.tok ttype lab] =>
          if ttype != "LABELNAME" then
            .error (.x86ConversionError "Jump instruction must have label operand")
          else
            match dictGet? labelMap lab with
            | none =>
                .error (.x86ConversionError
                  ("Label " ++ lab ++ " does not exist in the program"))
            | some target =>
                let regsList := dictValues st.regs
                if opcode == "jmp" then
                  .ok (IROp.jmpOp regsList target, ⟨st.regs, st.nextOp + 1⟩)
                else if blockIndex == numBlocks - 1 then
                  .error (.x86ConversionError
                    "Conditional jump at the end of program (has no successor)")
                else if COND_JUMP_NAMES.contains opcode then
                  match dictGet? st.regs "rflags" with
                  | none => .error (.keyError "rflags")
                  | some fl =>
                      .ok (IROp.condJumpOp opcode fl regsList regsList target
                            (blockIndex + 1), ⟨st.regs, st.nextOp + 1⟩)
                else .error (.keyError opcode)
      | [.node _ _] =>
          .error (.x86ConversionError "Jump instruction must have label operand")
      | _ => .error (.x86ConversionError "Jump instruction must have one operand")

/-- Register tracker contents on entry to block `blockIdx`: `convert_blocks`
reinitialises `current_register_values` from the block's input arguments for
the keys of `X86_INDEX_BY_NAME` only (the flags argument, created at
position 16 by `new_basic_block`, is not copied). -/
def initRegs (blockIdx : Nat) : Dict SSAVal :=
  GPR_NAMES.enum.map (fun p => (p.2, SSAVal.blockArg blockIdx p.1))

/-- Accumulator for lowering one block's statements. -/
structure BlockAcc where
  regs : Dict SSAVal
  ops : List IROp
  endedWithJump : Bool
  nextOp : Nat

/-- One iteration of the inner statement loop of `convert_blocks`. -/
def lowerStmt (labelMap : Dict Nat) (numBlocks index : Nat) (acc : BlockAcc)
    (p : PTree) : Except PyError BlockAcc := do
  match p with
  | .tok _ _ => .error (.x86ConversionError "Invalid code structure")
  | .node d children =>
    if d == "label" then
      match children with
      | [] => .error .indexError
      | PTree.tok _ name :: _ =>
          pure { acc with ops := acc.ops ++ [IROp.labelOp name] }
      | PTree.node _ _ :: _ =>
          .error (.x86ConversionError "Invalid code structure")
    else
      if (← is_jump_instruction p) then
        let r ← parse_jump labelMap numBlocks ⟨acc.regs, acc.nextOp⟩ children index
        pure { regs := r.2.regs, ops := acc.ops ++ [r.1], endedWithJump := true,
               nextOp := r.2.nextOp }
      else
        let r ← parse_instruction ⟨acc.regs, acc.nextOp⟩ children
        pure { regs := r.2.regs, ops := acc.ops ++ [r.1],
               endedWithJump := acc.endedWithJump, nextOp := r.2.nextOp }

/-- Statement loop of `convert_blocks` over one block. -/
def lowerStmts (labelMap : Dict Nat) (numBlocks index : Nat) :
    List PTree → BlockAcc → Except PyError BlockAcc
  | [], acc => .ok acc
  | p :: ps, acc => do
      lowerStmts labelMap numBlocks index ps
        (← lowerStmt labelMap numBlocks index acc p)

/-- Lowering of one block: reset the tracker from the block's inputs, lower
each statement, then synthesize a fallthrough when the block did not end
with a jump and is not the program's last block. -/
def lowerBlock (labelMap : Dict Nat) (numBlocks index : Nat) (stmts : List PTree) :
    Except PyError (List IROp) := do
  let acc ← lowerStmts labelMap numBlocks index stmts ⟨initRegs index, [], false, 0⟩
  if !acc.endedWithJump && index != numBlocks - 1 then
    pure (acc.ops ++ [IROp.fallthroughOp (dictValues acc.regs) (index + 1)])
  else
    pure acc.ops

/-- Block loop of `convert_blocks`, carrying the enumeration index. -/
def convertBlocksFrom (labelMap : Dict Nat) (numBlocks : Nat) :
    Nat → List (List PTree) → Except PyError (List (List IROp))
  | _, [] => .ok []
  | index, b :: rest => do
      let ops ← lowerBlock labelMap numBlocks index b
      let restOps ← convertBlocksFrom labelMap numBlocks (index + 1) rest
      pure (ops :: restOps)

/-- Transcription of `X86Converter.convert`, acting on the child list of the
program node: split into blocks, then lower each block in program order. -/
def convert (stmts : List PTree) : Except PyError (List (List IROp)) := do
  let (bs, lm) ← get_basic_blocks stmts
  convertBlocksFrom lm bs.length 0 bs

/-! Predicates used by the theorems below. -/

/-- Key structure maintained by the register tracker inside one block: the
16 general-purpose registers in canonical order, with the flags entry
appended once a flags-writing instruction has executed. -/
def RegsInv (d : Dict SSAVal) : Prop :=
  dictKeys d = GPR_NAMES ∨ dictKeys d = GPR_NAMES ++ ["rflags"]

/-- The possible register-tracker updates a single non-jump instruction can
perform. -/
def RegsUpd (d d' : Dict SSAVal) : Prop :=
  d' = d ∨ (∃ v, d' = dictSet d "rflags" v) ∨
  (∃ r v, GPR_NAMES.contains r = true ∧ d' = dictSet d r v) ∨
  (∃ r v w, GPR_NAMES.contains r = true ∧ d' = dictSet (dictSet d "rsp" v) r w)

/-- Operation is not a conditional jump. -/
def CondFreeOp (op : IROp) : Prop :=
  ∀ oc fl tv ev tb eb, op ≠ IROp.condJumpOp oc fl tv ev tb eb

/-- Property of every conditional-jump operation lowered into block `i` of a
program with `n` blocks. -/
def GoodCond (n i : Nat) (op : IROp) : Prop :=
  ∀ oc fl tv ev tb eb, op = IROp.condJumpOp oc fl tv ev tb eb →
    ev = tv ∧ tv.length = 17 ∧ eb = i + 1 ∧ (i == n - 1) = false

/-- Mnemonics the splitter treats as block terminators. -/
def termNameB (s : String) : Bool :=
  s == "jmp" || COND_JUMP_NAMES.contains s || s == "ret"

/-- Statement kinds of the specification's splitting algorithm. -/
inductive SpecStmt where
  | label
  | terminator
  | plain
deriving DecidableEq

/-- Modelled from the spec: classification of an input statement (sections
4.1 and 6) as a label, a terminating instruction (unconditional jump,
conditional jump, or return), or a plain instruction. -/
def classifyStmt : PTree → SpecStmt
  | .node d (PTree.tok _ v :: _) =>
      if d == "label" then .label
      else if termNameB (pyLower v) then .terminator else .plain
  | _ => .plain

/-- Well-formed statement per the input contract of section 6: a label node
with a name token (a name that is not an instruction mnemonic), or an
instruction node with at least one child. -/
def wfStmtB : PTree → Bool
  | .tok _ _ => false
  | .node _ [] => false
  | .node d (PTree.tok _ v :: _) => if d == "label" then !(termNameB (pyLower v)) else true
  | .node d (PTree.node _ _ :: _) => d != "label"

/-- Modelled from the spec: one step of the splitting discipline of section
4.1 on the pair (closed-block count, open-block size).  On a label the open
block is closed if non-empty and a new one opened; every statement is
appended to the open block; after a terminating instruction the open block
is closed. -/
def specStep : Nat × Nat → SpecStmt → Nat × Nat
  | (done, opened), .label => (if 0 < opened then done + 1 else done, 1)
  | (done, _), .terminator => (done + 1, 0)
  | (done, opened), .plain => (done, opened + 1)

/-- Fold of `specStep` over a statement sequence. -/
def specFold : List SpecStmt → Nat × Nat → Nat × Nat
  | [], s => s
  | c :: cs, s => specFold cs (specStep s c)

/-- Modelled from the spec: the number of blocks the splitting discipline of
section 4.1 produces (a trailing empty block is discarded). -/
def specBlockCount (l : List SpecStmt) : Nat :=
  let r := specFold l (0, 0)
  if r.2 = 0 then r.1 else r.1 + 1

/-- Statement is a label node defining the name `n`. -/
def definesLabelB (n : String) : PTree → Bool
  | .node d (PTree.tok _ name :: _) => d == "label" && name == n
  | _ => false

/-! Concrete programs used as failing inputs and witnesses. -/

/-- Instruction node helper. -/
def instrN (opcode : String) (ops : List PTree) : PTree :=
  .node "instruction" (.tok "OPCODE" opcode :: ops)

/-- Label statement helper. -/
def labelN (n : String) : PTree := .node "label" [.tok "LABELNAME" n, .tok ":" ":"]

/-- Program `jmp l / l: ret`: an unconditional jump in a block where no
flags-writing instruction has executed. -/
def progJmp : List PTree :=
  [instrN "jmp" [.tok "LABELNAME" "l"], labelN "l", instrN "ret" []]

/-- Program `add [rax], rbx`: a single memory-register instruction. -/
def progMemReg : List PTree :=
  [instrN "add" [.node "mem" [.tok "REG" "rax"], .tok "REG" "rbx"]]

/-- Program `ret / l: ret`: a block ending in return that is not the
program's last block. -/
def progRetRet : List PTree :=
  [instrN "ret" [], labelN "l", instrN "ret" []]

/-- Program `mov rax, [eax]`: memory operand whose base register is not a
tracked architectural register. -/
def progUntrackedBase : List PTree :=
  [instrN "mov" [.tok "REG" "rax", .node "mem" [.tok "REG" "eax"]]]

/-- Program `a: jnz a / ret`: a conditional jump lowered in a block where no
flags value is tracked. -/
def progCondNoFlags : List PTree :=
  [labelN "a", instrN "jnz" [.tok "LABELNAME" "a"], instrN "ret" []]

/-- Program `a: cmp rax, rbx / jnz a / ret`. -/
def progCmpJnz : List PTree :=
  [labelN "a", instrN "cmp" [.tok "REG" "rax", .tok "REG" "rbx"],
   instrN "jnz" [.tok "LABELNAME" "a"], instrN "ret" []]

/-- Program `a: / jnz a`: conditional jump as the final statement. -/
def progDangling : List PTree :=
  [labelN "a", instrN "jnz" [.tok "LABELNAME" "a"]]

/-- Program `a: ret / a: ret`: the same label defined twice. -/
def progDupLabel : List PTree :=
  [labelN "a", instrN "ret" [], labelN "a", instrN "ret" []]

/-- The snapshot the converter emits from a block that tracked no flags
value: the 16 general-purpose block arguments only. -/
def snapshot16 (blockIdx : Nat) : List SSAVal :=
  (List.range 16).map (fun j => SSAVal.blockArg blockIdx j)

/-- The snapshot emitted after a compare in block 0 of `progCmpJnz`. -/
def snapshot17 : List SSAVal :=
  snapshot16 0 ++ [SSAVal.opResult 0 0]

/-! Dictionary lemmas. -/

theorem dictGet?_dictSet_self {α : Type} (d : Dict α) (k : String) (v : α) :
    dictGet? (dictSet d k v) k = some v := by
  induction d with
  | nil => simp [dictSet, dictGet?]
  | cons p rest ih =>
      by_cases h : p.1 = k
      · simp [dictSet, dictGet?, h]
      · simp [dictSet, dictGet?, h, ih]

theorem dictGet?_dictSet_ne {α : Type} (d : Dict α) (k k' : String) (v : α)
    (h : k ≠ k') : dictGet? (dictSet d k v) k' = dictGet? d k' := by
  induction d with
  | nil => simp [dictSet, dictGet?, h]
  | cons p rest ih =>
      by_cases hp : p.1 = k
      · simp [dictSet, dictGet?, hp, h]
      · simp [dictSet, dictGet?, hp, ih]

theorem dictKeys_cons {α : Type} (p : String × α) (rest : Dict α) :
    dictKeys (p :: rest) = p.1 :: dictKeys rest := rfl

theorem mem_dictKeys_of_dictGet? {α : Type} (d : Dict α) (k : String) (v : α)
    (h : dictGet? d k = some v) : k ∈ dictKeys d := by
  induction d with
  | nil => simp [dictGet?] at h
  | cons p rest ih =>
      rw [dictKeys_cons]
      by_cases hp : p.1 = k
      · exact hp ▸ List.mem_cons_self _ _
      · simp only [dictGet?, hp, if_false] at h
        exact List.mem_cons_of_mem _ (ih h)

theorem dictKeys_dictSet_mem {α : Type} (d : Dict α) (k : String) (v : α)
    (h : k ∈ dictKeys d) : dictKeys (dictSet d k v) = dictKeys d := by
  induction d with
  | nil => simp [dictKeys] at h
  | cons p rest ih =>
      by_cases hp : p.1 = k
      · simp [dictSet, dictKeys_cons, hp]
      · rw [dictKeys_cons] at h
        rcases List.mem_cons.mp h with h1 | h2
        · exact absurd h1.symm hp
        · simp [dictSet, hp, dictKeys_cons, ih h2]

theorem dictKeys_dictSet_not_mem {α : Type} (d : Dict α) (k : String) (v : α)
    (h : k ∉ dictKeys d) : dictKeys (dictSet d k v) = dictKeys d ++ [k] := by
  induction d with
  | nil => simp [dictSet, dictKeys]
  | cons p rest ih =>
      rw [dictKeys_cons] at h
      have h1 : p.1 ≠ k := fun he => h (he ▸ List.mem_cons_self _ _)
      have h2 : k ∉ dictKeys rest := fun hm => h (List.mem_cons_of_mem _ hm)
      simp [dictSet, h1, dictKeys_cons, ih h2]

theorem length_dictValues {α : Type} (d : Dict α) :
    (dictValues d).length = (dictKeys d).length := by
  simp [dictValues, dictKeys]

/-! Register-tracker invariant lemmas. -/

theorem rflags_not_gpr : ("rflags" ∈ GPR_NAMES) = False := by
  simp [GPR_NAMES]

theorem dictKeys_initRegs (i : Nat) : dictKeys (initRegs i) = GPR_NAMES := rfl

theorem regsInv_initRegs (i : Nat) : RegsInv (initRegs i) :=
  Or.inl (dictKeys_initRegs i)

theorem regsInv_dictSet_gpr (d : Dict SSAVal) (r : String) (v : SSAVal)
    (hInv : RegsInv d) (hr : GPR_NAMES.contains r = true) :
    RegsInv (dictSet d r v) := by
  have hmem : r ∈ GPR_NAMES := by simpa using hr
  rcases hInv with h | h
  · left
    rw [dictKeys_dictSet_mem d r v (h ▸ hmem), h]
  · right
    rw [dictKeys_dictSet_mem d r v (by rw [h]; exact List.mem_append_left _ hmem), h]

theorem regsInv_dictSet_rflags (d : Dict SSAVal) (v : SSAVal)
    (hInv : RegsInv d) : RegsInv (dictSet d "rflags" v) := by
  rcases hInv with h | h
  · right
    rw [dictKeys_dictSet_not_mem d "rflags" v (by rw [h]; simp [GPR_NAMES]), h]
  · right
    rw [dictKeys_dictSet_mem d "rflags" v (by rw [h]; simp), h]

theorem regsInv_of_regsUpd (d d' : Dict SSAVal) (hInv : RegsInv d)
    (h : RegsUpd d d') : RegsInv d' := by
  rcases h with rfl | ⟨v, rfl⟩ | ⟨r, v, hr, rfl⟩ | ⟨r, v, w, hr, rfl⟩
  · exact hInv
  · exact regsInv_dictSet_rflags d v hInv
  · exact regsInv_dictSet_gpr d r v hInv hr
  · exact regsInv_dictSet_gpr _ r w
      (regsInv_dictSet_gpr d "rsp" v hInv (by simp [GPR_NAMES])) hr

theorem regsInv_flags_length (d : Dict SSAVal) (fl : SSAVal)
    (hInv : RegsInv d) (h : dictGet? d "rflags" = some fl) :
    (dictValues d).length = 17 := by
  have hmem := mem_dictKeys_of_dictGet? d "rflags" fl h
  rcases hInv with hk | hk
  · exact absurd (hk ▸ hmem) (by simp [GPR_NAMES])
  · rw [length_dictValues, hk]
    simp [GPR_NAMES]

/-! Shape of the state update performed by a successfully lowered non-jump
instruction. -/

theorem set_destination_register_ok (regs : Dict SSAVal) (o : PTree)
    (v : SSAVal) (regs' : Dict SSAVal)
    (h : set_destination_register regs o v = .ok regs') :
    ∃ r, GPR_NAMES.contains r = true ∧ regs' = dictSet regs r v := by
  unfold set_destination_register at h
  split at h
  · split at h
    · exact ⟨_, by assumption, by injection h with h1; exact h1.symm⟩
    · exact Except.noConfusion h
  · exact Except.noConfusion h


theorem parse_RS_cases (st : LowerState) (opcode : String) (o1 o2 : PTree)
    (op : IROp) (st' : LowerState) (h : parse_RS st opcode o1 o2 = .ok (op, st')) :
    RegsUpd st.regs st'.regs ∧ CondFreeOp op := by
  unfold parse_RS at h
  simp only [bind, Except.bind, pure, Except.pure] at h
  repeat' (split at h)
  all_goals try exact Except.noConfusion h
  all_goals
    simp only [Except.ok.injEq, Prod.mk.injEq] at h
    obtain ⟨rfl, rfl⟩ := h
    refine ⟨?_, by intro oc fl tv ev tb eb hc; cases hc⟩
    first
    | exact Or.inl rfl
    | exact Or.inr (Or.inl ⟨_, rfl⟩)
    | exact Or.inr (Or.inr (Or.inl ⟨_, _, by decide, rfl⟩))
    | · rename_i heq
        rcases set_destination_register_ok _ _ _ _ heq with ⟨r, hr, rfl⟩
        first
        | exact Or.inr (Or.inr (Or.inl ⟨r, _, hr, rfl⟩))
        | exact Or.inr (Or.inr (Or.inr ⟨r, _, _, hr, rfl⟩))

theorem parse_DS_cases (st : LowerState) (opcode : String) (o1 o2 : PTree)
    (op : IROp) (st' : LowerState) (h : parse_DS st opcode o1 o2 = .ok (op, st')) :
    RegsUpd st.regs st'.regs ∧ CondFreeOp op := by
  unfold parse_DS at h
  simp only [bind, Except.bind, pure, Except.pure] at h
  repeat' (split at h)
  all_goals try exact Except.noConfusion h
  all_goals
    simp only [Except.ok.injEq, Prod.mk.injEq] at h
    obtain ⟨rfl, rfl⟩ := h
    refine ⟨?_, by intro oc fl tv ev tb eb hc; cases hc⟩
    first
    | exact Or.inl rfl
    | exact Or.inr (Or.inl ⟨_, rfl⟩)
    | exact Or.inr (Or.inr (Or.inl ⟨_, _, by decide, rfl⟩))
    | · rename_i heq
        rcases set_destination_register_ok _ _ _ _ heq with ⟨r, hr, rfl⟩
        first
        | exact Or.inr (Or.inr (Or.inl ⟨r, _, hr, rfl⟩))
        | exact Or.inr (Or.inr (Or.inr ⟨r, _, _, hr, rfl⟩))

theorem parse_SS_cases (st : LowerState) (opcode : String) (o1 o2 : PTree)
    (op : IROp) (st' : LowerState) (h : parse_SS st opcode o1 o2 = .ok (op, st')) :
    RegsUpd st.regs st'.regs ∧ CondFreeOp op := by
  unfold parse_SS at h
  simp only [bind, Except.bind, pure, Except.pure] at h
  repeat' (split at h)
  all_goals try exact Except.noConfusion h
  all_goals
    simp only [Except.ok.injEq, Prod.mk.injEq] at h
    obtain ⟨rfl, rfl⟩ := h
    refine ⟨?_, by intro oc fl tv ev tb eb hc; cases hc⟩
    first
    | exact Or.inl rfl
    | exact Or.inr (Or.inl ⟨_, rfl⟩)
    | exact Or.inr (Or.inr (Or.inl ⟨_, _, by decide, rfl⟩))
    | · rename_i heq
        rcases set_destination_register_ok _ _ _ _ heq with ⟨r, hr, rfl⟩
        first
        | exact Or.inr (Or.inr (Or.inl ⟨r, _, hr, rfl⟩))
        | exact Or.inr (Or.inr (Or.inr ⟨r, _, _, hr, rfl⟩))

theorem parse_RM_cases (st : LowerState) (opcode : String) (o1 o2 : PTree)
    (op : IROp) (st' : LowerState) (h : parse_RM st opcode o1 o2 = .ok (op, st')) :
    RegsUpd st.regs st'.regs ∧ CondFreeOp op := by
  unfold parse_RM at h
  simp only [bind, Except.bind, pure, Except.pure] at h
  repeat' (split at h)
  all_goals try exact Except.noConfusion h
  all_goals
    simp only [Except.ok.injEq, Prod.mk.injEq] at h
    obtain ⟨rfl, rfl⟩ := h
    refine ⟨?_, by intro oc fl tv ev tb eb hc; cases hc⟩
    first
    | exact Or.inl rfl
    | exact Or.inr (Or.inl ⟨_, rfl⟩)
    | exact Or.inr (Or.inr (Or.inl ⟨_, _, by decide, rfl⟩))
    | · rename_i heq
        rcases set_destination_register_ok _ _ _ _ heq with ⟨r, hr, rfl⟩
        first
        | exact Or.inr (Or.inr (Or.inl ⟨r, _, hr, rfl⟩))
        | exact Or.inr (Or.inr (Or.inr ⟨r, _, _, hr, rfl⟩))

theorem parse_DM_cases (st : LowerState) (opcode : String) (o1 o2 : PTree)
    (op : IROp) (st' : LowerState) (h : parse_DM st opcode o1 o2 = .ok (op, st')) :
    RegsUpd st.regs st'.regs ∧ CondFreeOp op := by
  unfold parse_DM at h
  simp only [bind, Except.bind, pure, Except.pure] at h
  repeat' (split at h)
  all_goals try exact Except.noConfusion h
  all_goals
    simp only [Except.ok.injEq, Prod.mk.injEq] at h
    obtain ⟨rfl, rfl⟩ := h
    refine ⟨?_, by intro oc fl tv ev tb eb hc; cases hc⟩
    first
    | exact Or.inl rfl
    | exact Or.inr (Or.inl ⟨_, rfl⟩)
    | exact Or.inr (Or.inr (Or.inl ⟨_, _, by decide, rfl⟩))
    | · rename_i heq
        rcases set_destination_register_ok _ _ _ _ heq with ⟨r, hr, rfl⟩
        first
        | exact Or.inr (Or.inr (Or.inl ⟨r, _, hr, rfl⟩))
        | exact Or.inr (Or.inr (Or.inr ⟨r, _, _, hr, rfl⟩))

theorem parse_SM_cases (st : LowerState) (opcode : String) (o1 o2 : PTree)
    (op : IROp) (st' : LowerState) (h : parse_SM st opcode o1 o2 = .ok (op, st')) :
    RegsUpd st.regs st'.regs ∧ CondFreeOp op := by
  unfold parse_SM at h
  simp only [bind, Except.bind, pure, Except.pure] at h
  repeat' (split at h)
  all_goals try exact Except.noConfusion h
  all_goals
    simp only [Except.ok.injEq, Prod.mk.injEq] at h
    obtain ⟨rfl, rfl⟩ := h
    refine ⟨?_, by intro oc fl tv ev tb eb hc; cases hc⟩
    first
    | exact Or.inl rfl
    | exact Or.inr (Or.inl ⟨_, rfl⟩)
    | exact Or.inr (Or.inr (Or.inl ⟨_, _, by decide, rfl⟩))
    | · rename_i heq
        rcases set_destination_register_ok _ _ _ _ heq with ⟨r, hr, rfl⟩
        first
        | exact Or.inr (Or.inr (Or.inl ⟨r, _, hr, rfl⟩))
        | exact Or.inr (Or.inr (Or.inr ⟨r, _, _, hr, rfl⟩))

theorem parse_RI_cases (st : LowerState) (opcode : String) (o1 o2 : PTree)
    (op : IROp) (st' : LowerState) (h : parse_RI st opcode o1 o2 = .ok (op, st')) :
    RegsUpd st.regs st'.regs ∧ CondFreeOp op := by
  unfold parse_RI at h
  simp only [bind, Except.bind, pure, Except.pure] at h
  repeat' (split at h)
  all_goals try exact Except.noConfusion h
  all_goals
    simp only [Except.ok.injEq, Prod.mk.injEq] at h
    obtain ⟨rfl, rfl⟩ := h
    refine ⟨?_, by intro oc fl tv ev tb eb hc; cases hc⟩
    first
    | exact Or.inl rfl
    | exact Or.inr (Or.inl ⟨_, rfl⟩)
    | exact Or.inr (Or.inr (Or.inl ⟨_, _, by decide, rfl⟩))
    | · rename_i heq
        rcases set_destination_register_ok _ _ _ _ heq with ⟨r, hr, rfl⟩
        first
        | exact Or.inr (Or.inr (Or.inl ⟨r, _, hr, rfl⟩))
        | exact Or.inr (Or.inr (Or.inr ⟨r, _, _, hr, rfl⟩))

theorem parse_DI_cases (st : LowerState) (opcode : String) (o1 o2 : PTree)
    (op : IROp) (st' : LowerState) (h : parse_DI st opcode o1 o2 = .ok (op, st')) :
    RegsUpd st.regs st'.regs ∧ CondFreeOp op := by
  unfold parse_DI at h
  simp only [bind, Except.bind, pure, Except.pure] at h
  repeat' (split at h)
  all_goals try exact Except.noConfusion h
  all_goals
    simp only [Except.ok.injEq, Prod.mk.injEq] at h
    obtain ⟨rfl, rfl⟩ := h
    refine ⟨?_, by intro oc fl tv ev tb eb hc; cases hc⟩
    first
    | exact Or.inl rfl
    | exact Or.inr (Or.inl ⟨_, rfl⟩)
    | exact Or.inr (Or.inr (Or.inl ⟨_, _, by decide, rfl⟩))
    | · rename_i heq
        rcases set_destination_register_ok _ _ _ _ heq with ⟨r, hr, rfl⟩
        first
        | exact Or.inr (Or.inr (Or.inl ⟨r, _, hr, rfl⟩))
        | exact Or.inr (Or.inr (Or.inr ⟨r, _, _, hr, rfl⟩))

theorem parse_SI_cases (st : LowerState) (opcode : String) (o1 o2 : PTree)
    (op : IROp) (st' : LowerState) (h : parse_SI st opcode o1 o2 = .ok (op, st')) :
    RegsUpd st.regs st'.regs ∧ CondFreeOp op := by
  unfold parse_SI at h
  simp only [bind, Except.bind, pure, Except.pure] at h
  repeat' (split at h)
  all_goals try exact Except.noConfusion h
  all_goals
    simp only [Except.ok.injEq, Prod.mk.injEq] at h
    obtain ⟨rfl, rfl⟩ := h
    refine ⟨?_, by intro oc fl tv ev tb eb hc; cases hc⟩
    first
    | exact Or.inl rfl
    | exact Or.inr (Or.inl ⟨_, rfl⟩)
    | exact Or.inr (Or.inr (Or.inl ⟨_, _, by decide, rfl⟩))
    | · rename_i heq
        rcases set_destination_register_ok _ _ _ _ heq with ⟨r, hr, rfl⟩
        first
        | exact Or.inr (Or.inr (Or.inl ⟨r, _, hr, rfl⟩))
        | exact Or.inr (Or.inr (Or.inr ⟨r, _, _, hr, rfl⟩))

theorem parse_MS_cases (st : LowerState) (opcode : String) (o1 o2 : PTree)
    (op : IROp) (st' : LowerState) (h : parse_MS st opcode o1 o2 = .ok (op, st')) :
    RegsUpd st.regs st'.regs ∧ CondFreeOp op := by
  unfold parse_MS at h
  simp only [bind, Except.bind, pure, Except.pure] at h
  repeat' (split at h)
  all_goals try exact Except.noConfusion h
  all_goals
    simp only [Except.ok.injEq, Prod.mk.injEq] at h
    obtain ⟨rfl, rfl⟩ := h
    refine ⟨?_, by intro oc fl tv ev tb eb hc; cases hc⟩
    first
    | exact Or.inl rfl
    | exact Or.inr (Or.inl ⟨_, rfl⟩)
    | exact Or.inr (Or.inr (Or.inl ⟨_, _, by decide, rfl⟩))
    | · rename_i heq
        rcases set_destination_register_ok _ _ _ _ heq with ⟨r, hr, rfl⟩
        first
        | exact Or.inr (Or.inr (Or.inl ⟨r, _, hr, rfl⟩))
        | exact Or.inr (Or.inr (Or.inr ⟨r, _, _, hr, rfl⟩))

theorem parse_MI_cases (st : LowerState) (opcode : String) (o1 o2 : PTree)
    (op : IROp) (st' : LowerState) (h : parse_MI st opcode o1 o2 = .ok (op, st')) :
    RegsUpd st.regs st'.regs ∧ CondFreeOp op := by
  unfold parse_MI at h
  simp only [bind, Except.bind, pure, Except.pure] at h
  repeat' (split at h)
  all_goals try exact Except.noConfusion h
  all_goals
    simp only [Except.ok.injEq, Prod.mk.injEq] at h
    obtain ⟨rfl, rfl⟩ := h
    refine ⟨?_, by intro oc fl tv ev tb eb hc; cases hc⟩
    first
    | exact Or.inl rfl
    | exact Or.inr (Or.inl ⟨_, rfl⟩)
    | exact Or.inr (Or.inr (Or.inl ⟨_, _, by decide, rfl⟩))
    | · rename_i heq
        rcases set_destination_register_ok _ _ _ _ heq with ⟨r, hr, rfl⟩
        first
        | exact Or.inr (Or.inr (Or.inl ⟨r, _, hr, rfl⟩))
        | exact Or.inr (Or.inr (Or.inr ⟨r, _, _, hr, rfl⟩))

theorem parse_R_cases (st : LowerState) (opcode : String) (o1 : PTree)
    (op : IROp) (st' : LowerState) (h : parse_R st opcode o1 = .ok (op, st')) :
    RegsUpd st.regs st'.regs ∧ CondFreeOp op := by
  unfold parse_R at h
  simp only [bind, Except.bind, pure, Except.pure] at h
  repeat' (split at h)
  all_goals try exact Except.noConfusion h
  all_goals
    simp only [Except.ok.injEq, Prod.mk.injEq] at h
    obtain ⟨rfl, rfl⟩ := h
    refine ⟨?_, by intro oc fl tv ev tb eb hc; cases hc⟩
    first
    | exact Or.inl rfl
    | exact Or.inr (Or.inl ⟨_, rfl⟩)
    | exact Or.inr (Or.inr (Or.inl ⟨_, _, by decide, rfl⟩))
    | · rename_i heq
        rcases set_destination_register_ok _ _ _ _ heq with ⟨r, hr, rfl⟩
        first
        | exact Or.inr (Or.inr (Or.inl ⟨r, _, hr, rfl⟩))
        | exact Or.inr (Or.inr (Or.inr ⟨r, _, _, hr, rfl⟩))

theorem parse_D_cases (st : LowerState) (opcode : String) (o1 : PTree)
    (op : IROp) (st' : LowerState) (h : parse_D st opcode o1 = .ok (op, st')) :
    RegsUpd st.regs st'.regs ∧ CondFreeOp op := by
  unfold parse_D at h
  simp only [bind, Except.bind, pure, Except.pure] at h
  repeat' (split at h)
  all_goals try exact Except.noConfusion h
  all_goals
    simp only [Except.ok.injEq, Prod.mk.injEq] at h
    obtain ⟨rfl, rfl⟩ := h
    refine ⟨?_, by intro oc fl tv ev tb eb hc; cases hc⟩
    first
    | exact Or.inl rfl
    | exact Or.inr (Or.inl ⟨_, rfl⟩)
    | exact Or.inr (Or.inr (Or.inl ⟨_, _, by decide, rfl⟩))
    | · rename_i heq
        rcases set_destination_register_ok _ _ _ _ heq with ⟨r, hr, rfl⟩
        first
        | exact Or.inr (Or.inr (Or.inl ⟨r, _, hr, rfl⟩))
        | exact Or.inr (Or.inr (Or.inr ⟨r, _, _, hr, rfl⟩))

theorem parse_S_cases (st : LowerState) (opcode : String) (o1 : PTree)
    (op : IROp) (st' : LowerState) (h : parse_S st opcode o1 = .ok (op, st')) :
    RegsUpd st.regs st'.regs ∧ CondFreeOp op := by
  unfold parse_S at h
  simp only [bind, Except.bind, pure, Except.pure] at h
  repeat' (split at h)
  all_goals try exact Except.noConfusion h
  all_goals
    simp only [Except.ok.injEq, Prod.mk.injEq] at h
    obtain ⟨rfl, rfl⟩ := h
    refine ⟨?_, by intro oc fl tv ev tb eb hc; cases hc⟩
    first
    | exact Or.inl rfl
    | exact Or.inr (Or.inl ⟨_, rfl⟩)
    | exact Or.inr (Or.inr (Or.inl ⟨_, _, by decide, rfl⟩))
    | · rename_i heq
        rcases set_destination_register_ok _ _ _ _ heq with ⟨r, hr, rfl⟩
        first
        | exact Or.inr (Or.inr (Or.inl ⟨r, _, hr, rfl⟩))
        | exact Or.inr (Or.inr (Or.inr ⟨r, _, _, hr, rfl⟩))

theorem parse_M_cases (st : LowerState) (opcode : String) (o1 : PTree)
    (op : IROp) (st' : LowerState) (h : parse_M st opcode o1 = .ok (op, st')) :
    RegsUpd st.regs st'.regs ∧ CondFreeOp op := by
  unfold parse_M at h
  simp only [bind, Except.bind, pure, Except.pure] at h
  repeat' (split at h)
  all_goals try exact Except.noConfusion h
  all_goals
    simp only [Except.ok.injEq, Prod.mk.injEq] at h
    obtain ⟨rfl, rfl⟩ := h
    refine ⟨?_, by intro oc fl tv ev tb eb hc; cases hc⟩
    first
    | exact Or.inl rfl
    | exact Or.inr (Or.inl ⟨_, rfl⟩)
    | exact Or.inr (Or.inr (Or.inl ⟨_, _, by decide, rfl⟩))
    | · rename_i heq
        rcases set_destination_register_ok _ _ _ _ heq with ⟨r, hr, rfl⟩
        first
        | exact Or.inr (Or.inr (Or.inl ⟨r, _, hr, rfl⟩))
        | exact Or.inr (Or.inr (Or.inr ⟨r, _, _, hr, rfl⟩))

theorem parse_C_cases (st : LowerState) (opcode : String)
    (op : IROp) (st' : LowerState) (h : parse_C st opcode = .ok (op, st')) :
    RegsUpd st.regs st'.regs ∧ CondFreeOp op := by
  unfold parse_C at h
  split at h
  · simp only [Except.ok.injEq, Prod.mk.injEq] at h
    obtain ⟨rfl, rfl⟩ := h
    exact ⟨Or.inl rfl, by intro oc fl tv ev tb eb hc; cases hc⟩
  · exact Except.noConfusion h

theorem parse_instruction_regs_cases (st : LowerState) (ch : List PTree)
    (op : IROp) (st' : LowerState) (h : parse_instruction st ch = .ok (op, st')) :
    RegsUpd st.regs st'.regs ∧ CondFreeOp op := by
  rcases ch with _ | ⟨c, operands⟩
  · exact absurd h (by simp [parse_instruction])
  rcases c with ⟨t, opv⟩ | ⟨dd, cs⟩
  case cons.node => exact absurd h (by simp [parse_instruction])
  unfold parse_instruction at h
  simp only [bind, Except.bind] at h
  split at h
  · exact Except.noConfusion h
  split at h
  all_goals
    first
    | exact Except.noConfusion h
    | exact parse_C_cases _ _ _ _ h
    | · split at h
        all_goals try exact Except.noConfusion h
        all_goals
          first
          | exact parse_RS_cases _ _ _ _ _ _ h
          | exact parse_DS_cases _ _ _ _ _ _ h
          | exact parse_SS_cases _ _ _ _ _ _ h
          | exact parse_RM_cases _ _ _ _ _ _ h
          | exact parse_DM_cases _ _ _ _ _ _ h
          | exact parse_SM_cases _ _ _ _ _ _ h
          | exact parse_RI_cases _ _ _ _ _ _ h
          | exact parse_DI_cases _ _ _ _ _ _ h
          | exact parse_SI_cases _ _ _ _ _ _ h
          | exact parse_MS_cases _ _ _ _ _ _ h
          | exact parse_MI_cases _ _ _ _ _ _ h
          | exact parse_R_cases _ _ _ _ _ h
          | exact parse_D_cases _ _ _ _ _ h
          | exact parse_S_cases _ _ _ _ _ h
          | exact parse_M_cases _ _ _ _ _ h

/-! Lemmas about `parse_jump`. -/

theorem parse_jump_ok_shape (lm : Dict Nat) (n : Nat) (st : LowerState)
    (ch : List PTree) (i : Nat) (op : IROp) (st2 : LowerState)
    (h : parse_jump lm n st ch i = .ok (op, st2)) :
    st2 = ⟨st.regs, st.nextOp + 1⟩ ∧
      ((∃ target, op = IROp.jmpOp (dictValues st.regs) target) ∨
       (∃ oc fl target,
          op = IROp.condJumpOp oc fl (dictValues st.regs) (dictValues st.regs)
                target (i + 1) ∧
          (i == n - 1) = false ∧ dictGet? st.regs "rflags" = some fl)) := by
  rcases ch with _ | ⟨c, rest⟩
  · exact absurd h (by simp [parse_jump])
  rcases c with ⟨t, opv⟩ | ⟨dd, cs⟩
  case cons.node => exact absurd h (by simp [parse_jump])
  rcases rest with _ | ⟨o1, rest2⟩
  · exact Except.noConfusion h
  rcases rest2 with _ | ⟨o2, rest3⟩
  swap
  · exact Except.noConfusion h
  rcases o1 with ⟨ttype, lab⟩ | ⟨d2, cs2⟩
  swap
  · exact Except.noConfusion h
  have h' : (if (ttype != "LABELNAME") = true then
        (Except.error (PyError.x86ConversionError "Jump instruction must have label operand")
          : Except PyError (IROp × LowerState))
      else
        match dictGet? lm lab with
        | none =>
            Except.error (PyError.x86ConversionError
              ("Label " ++ lab ++ " does not exist in the program"))
        | some target =>
            if ((pyLower opv) == "jmp") = true then
              Except.ok (IROp.jmpOp (dictValues st.regs) target,
                (⟨st.regs, st.nextOp + 1⟩ : LowerState))
            else if (i == n - 1) = true then
              Except.error (PyError.x86ConversionError
                "Conditional jump at the end of program (has no successor)")
            else if COND_JUMP_NAMES.contains (pyLower opv) = true then
              match dictGet? st.regs "rflags" with
              | none => Except.error (PyError.keyError "rflags")
              | some fl =>
                  Except.ok (IROp.condJumpOp (pyLower opv) fl (dictValues st.regs)
                    (dictValues st.regs) target (i + 1),
                    (⟨st.regs, st.nextOp + 1⟩ : LowerState))
            else Except.error (PyError.keyError (pyLower opv))) = Except.ok (op, st2) := h
  clear h
  repeat' (split at h')
  all_goals try exact Except.noConfusion h'
  all_goals
    simp only [Except.ok.injEq, Prod.mk.injEq] at h'
    obtain ⟨hop, hst⟩ := h'
    subst hst
    subst hop
    refine ⟨rfl, ?_⟩
    first
    | exact Or.inl ⟨_, rfl⟩
    | · refine Or.inr ⟨_, _, _, rfl, ?_, ?_⟩
        · simp_all
        · assumption

theorem parse_jump_regs (lm : Dict Nat) (n : Nat) (st : LowerState)
    (ch : List PTree) (i : Nat) (op : IROp) (st2 : LowerState)
    (h : parse_jump lm n st ch i = .ok (op, st2)) : st2.regs = st.regs := by
  obtain ⟨hst, _⟩ := parse_jump_ok_shape lm n st ch i op st2 h
  rw [hst]

theorem parse_jump_cond_spec (lm : Dict Nat) (n : Nat) (st : LowerState)
    (ch : List PTree) (i : Nat) (oc : String) (fl : SSAVal)
    (tv ev : List SSAVal) (tb eb : Nat) (st2 : LowerState)
    (h : parse_jump lm n st ch i = .ok (IROp.condJumpOp oc fl tv ev tb eb, st2)) :
    tv = dictValues st.regs ∧ ev = dictValues st.regs ∧ eb = i + 1 ∧
      (i == n - 1) = false ∧ dictGet? st.regs "rflags" = some fl := by
  obtain ⟨hst, hop⟩ := parse_jump_ok_shape lm n st ch i _ st2 h
  rcases hop with ⟨target, heq⟩ | ⟨oc2, fl2, target, heq, hni, hfl⟩
  · exact IROp.noConfusion heq
  · injection heq with e1 e2 e3 e4 e5 e6
    exact ⟨e3, e4, e6, hni, e2 ▸ hfl⟩

/-! Invariant and conditional-jump property through block lowering. -/

theorem lowerStmt_spec (lm : Dict Nat) (n i : Nat) (acc acc' : BlockAcc)
    (p : PTree) (h : lowerStmt lm n i acc p = .ok acc')
    (hInv : RegsInv acc.regs) :
    RegsInv acc'.regs ∧ ∀ op ∈ acc'.ops, op ∈ acc.ops ∨ GoodCond n i op := by
  rcases p with ⟨t, v⟩ | ⟨d, children⟩
  · exact absurd h (by simp [lowerStmt])
  by_cases hd : (d == "label") = true
  · rcases children with _ | ⟨c0, crest⟩
    · rw [show lowerStmt lm n i acc (PTree.node d []) = .error .indexError from by
        simp [lowerStmt, hd, pure, Except.pure]] at h
      exact Except.noConfusion h
    rcases c0 with ⟨t0, name⟩ | ⟨d0, cs0⟩
    · rw [show lowerStmt lm n i acc (PTree.node d (PTree.tok t0 name :: crest)) =
          .ok { acc with ops := acc.ops ++ [IROp.labelOp name] } from by
        simp [lowerStmt, hd, pure, Except.pure]] at h
      injection h with h
      subst h
      refine ⟨hInv, fun op hop => ?_⟩
      rcases List.mem_append.mp hop with h1 | h2
      · exact Or.inl h1
      · rw [List.mem_singleton] at h2
        subst h2
        exact Or.inr (fun oc fl tv ev tb eb hc => by cases hc)
    · rw [show lowerStmt lm n i acc (PTree.node d (PTree.node d0 cs0 :: crest)) =
          .error (.x86ConversionError "Invalid code structure") from by
        simp [lowerStmt, hd, pure, Except.pure]] at h
      exact Except.noConfusion h
  · have hd' : (d == "label") = false := by simpa using hd
    cases hj : is_jump_instruction (PTree.node d children) with
    | error e =>
        rw [show lowerStmt lm n i acc (PTree.node d children) = .error e from by
          simp [lowerStmt, hd', hj, bind, Except.bind, pure, Except.pure]] at h
        exact Except.noConfusion h
    | ok b =>
      cases b with
      | true =>
          cases hp : parse_jump lm n ⟨acc.regs, acc.nextOp⟩ children i with
          | error e =>
              rw [show lowerStmt lm n i acc (PTree.node d children) = .error e from by
                simp [lowerStmt, hd', hj, hp, bind, Except.bind, pure, Except.pure]] at h
              exact Except.noConfusion h
          | ok r =>
              obtain ⟨op0, st0⟩ := r
              rw [show lowerStmt lm n i acc (PTree.node d children) =
                  .ok { regs := st0.regs, ops := acc.ops ++ [op0],
                        endedWithJump := true, nextOp := st0.nextOp } from by
                simp [lowerStmt, hd', hj, hp, bind, Except.bind, pure, Except.pure]] at h
              injection h with h
              subst h
              have hregs : st0.regs = acc.regs := parse_jump_regs _ _ _ _ _ _ _ hp
              refine ⟨by rw [hregs]; exact hInv, fun op hop => ?_⟩
              rcases List.mem_append.mp hop with h1 | h2
              · exact Or.inl h1
              · rw [List.mem_singleton] at h2
                subst h2
                refine Or.inr (fun oc fl tv ev tb eb hc => ?_)
                subst hc
                obtain ⟨htv, hev, heb, hni, hfl⟩ :=
                  parse_jump_cond_spec _ _ _ _ _ _ _ _ _ _ _ _ hp
                refine ⟨hev.trans htv.symm, ?_, heb, hni⟩
                rw [htv]
                exact regsInv_flags_length _ _ hInv hfl
      | false =>
          cases hp : parse_instruction ⟨acc.regs, acc.nextOp⟩ children with
          | error e =>
              rw [show lowerStmt lm n i acc (PTree.node d children) = .error e from by
                simp [lowerStmt, hd', hj, hp, bind, Except.bind, pure, Except.pure]] at h
              exact Except.noConfusion h
          | ok r =>
              obtain ⟨op0, st0⟩ := r
              rw [show lowerStmt lm n i acc (PTree.node d children) =
                  .ok { regs := st0.regs, ops := acc.ops ++ [op0],
                        endedWithJump := acc.endedWithJump, nextOp := st0.nextOp } from by
                simp [lowerStmt, hd', hj, hp, bind, Except.bind, pure, Except.pure]] at h
              injection h with h
              subst h
              obtain ⟨hupd, hcf⟩ := parse_instruction_regs_cases _ _ _ _ hp
              refine ⟨regsInv_of_regsUpd _ _ hInv hupd, fun op hop => ?_⟩
              rcases List.mem_append.mp hop with h1 | h2
              · exact Or.inl h1
              · rw [List.mem_singleton] at h2
                subst h2
                exact Or.inr
                  (fun oc fl tv ev tb eb hc => absurd hc (hcf oc fl tv ev tb eb))

theorem lowerStmts_spec (lm : Dict Nat) (n i : Nat) :
    ∀ (ps : List PTree) (acc acc' : BlockAcc),
      lowerStmts lm n i ps acc = .ok acc' → RegsInv acc.regs →
      RegsInv acc'.regs ∧ ∀ op ∈ acc'.ops, op ∈ acc.ops ∨ GoodCond n i op := by
  intro ps
  induction ps with
  | nil =>
      intro acc acc' h hInv
      simp only [lowerStmts, Except.ok.injEq] at h
      subst h
      exact ⟨hInv, fun op hop => Or.inl hop⟩
  | cons p rest ih =>
      intro acc acc' h hInv
      rw [lowerStmts] at h
      simp only [bind, Except.bind] at h
      split at h
      · exact Except.noConfusion h
      case h_2 acc1 heq =>
        obtain ⟨hInv1, hops1⟩ := lowerStmt_spec lm n i acc acc1 p heq hInv
        obtain ⟨hInv2, hops2⟩ := ih acc1 acc' h hInv1
        refine ⟨hInv2, fun op hop => ?_⟩
        rcases hops2 op hop with h1 | h2
        · rcases hops1 op h1 with h3 | h4
          · exact Or.inl h3
          · exact Or.inr h4
        · exact Or.inr h2

theorem lowerBlock_spec (lm : Dict Nat) (n i : Nat) (stmts : List PTree)
    (ops : List IROp) (h : lowerBlock lm n i stmts = .ok ops) :
    ∀ op ∈ ops, GoodCond n i op := by
  unfold lowerBlock at h
  simp only [bind, Except.bind, pure, Except.pure] at h
  split at h
  · exact Except.noConfusion h
  case h_2 acc heq =>
    obtain ⟨hInv, hops⟩ :=
      lowerStmts_spec lm n i stmts ⟨initRegs i, [], false, 0⟩ acc heq (regsInv_initRegs i)
    have hbase : ∀ op ∈ acc.ops, GoodCond n i op := by
      intro op hop
      rcases hops op hop with h1 | h2
      · exact absurd h1 (List.not_mem_nil op)
      · exact h2
    split at h
    · simp only [Except.ok.injEq] at h
      subst h
      intro op hop
      rcases List.mem_append.mp hop with h1 | h2
      · exact hbase op h1
      · rw [List.mem_singleton] at h2
        subst h2
        exact fun oc fl tv ev tb eb hc => by cases hc
    · simp only [Except.ok.injEq] at h
      subst h
      exact hbase

theorem convertBlocksFrom_spec (lm : Dict Nat) (n : Nat) :
    ∀ (bs : List (List PTree)) (i : Nat) (out : List (List IROp)),
      convertBlocksFrom lm n i bs = .ok out →
      out.length = bs.length ∧
        ∀ j ops, out.get? j = some ops → ∀ op ∈ ops, GoodCond n (i + j) op := by
  intro bs
  induction bs with
  | nil =>
      intro i out h
      simp only [convertBlocksFrom, Except.ok.injEq] at h
      subst h
      exact ⟨rfl, fun j ops hj => by simp at hj⟩
  | cons b rest ih =>
      intro i out h
      rw [convertBlocksFrom] at h
      simp only [bind, Except.bind, pure, Except.pure] at h
      split at h
      · exact Except.noConfusion h
      case h_2 ops0 heq0 =>
        split at h
        · exact Except.noConfusion h
        case h_2 outRest heqRest =>
          simp only [Except.ok.injEq] at h
          subst h
          obtain ⟨hlen, hrest⟩ := ih (i + 1) outRest heqRest
          refine ⟨by simp [hlen], fun j ops hj => ?_⟩
          cases j with
          | zero =>
              simp only [List.get?] at hj
              injection hj with hj
              subst hj
              simpa using lowerBlock_spec lm n i b _ heq0
          | succ j =>
              intro op hop
              have := hrest j ops (by simpa using hj) op hop
              have harith : i + 1 + j = i + (j + 1) := by omega
              rw [harith] at this
              exact this

theorem convert_split (stmts : List PTree) (out : List (List IROp))
    (h : convert stmts = .ok out) :
    ∃ bs lm, get_basic_blocks stmts = .ok (bs, lm) ∧
      convertBlocksFrom lm bs.length 0 bs = .ok out := by
  unfold convert at h
  simp only [bind, Except.bind] at h
  split at h
  · exact Except.noConfusion h
  case h_2 p heq =>
    obtain ⟨bs, lm⟩ := p
    exact ⟨bs, lm, heq, h⟩

/-! Splitter building blocks. -/

theorem is_jump_tok (d t v : String) (rest : List PTree) :
    is_jump_instruction (.node d (.tok t v :: rest)) =
      .ok ((pyLower v) == "jmp" || COND_JUMP_NAMES.contains (pyLower v)) := rfl

theorem is_term_tok (d t v : String) (rest : List PTree) :
    is_terminating_instruction (.node d (.tok t v :: rest)) =
      .ok (termNameB (pyLower v)) := by
  cases ha : ((pyLower v) == "jmp") <;>
    cases hc : ((pyLower v) == "ret") <;>
      by_cases hm : (pyLower v) ∈ COND_JUMP_NAMES <;>
        simp [is_terminating_instruction, is_jump_instruction, termNameB,
          ha, hc, hm, bind, Except.bind, pure, Except.pure]

theorem is_term_nodehead (d d0 : String) (cs0 rest : List PTree) :
    is_terminating_instruction (.node d (.node d0 cs0 :: rest)) = .ok false := rfl

theorem splitStep_label_eq (st : SplitState) (d t name : String) (more : List PTree)
    (hd : (d == "label") = true) :
    splitStep st (.node d (.tok t name :: more)) =
      .ok (if termNameB (pyLower name) then
            ⟨(if st.curr.isEmpty then st.closed else st.closed ++ [st.curr]) ++
                [[PTree.node d (PTree.tok t name :: more)]], [],
              dictSet st.labelMap name
                (if st.curr.isEmpty then st.closed else st.closed ++ [st.curr]).length⟩
          else
            ⟨(if st.curr.isEmpty then st.closed else st.closed ++ [st.curr]),
              [PTree.node d (PTree.tok t name :: more)],
              dictSet st.labelMap name
                (if st.curr.isEmpty then st.closed else st.closed ++ [st.curr]).length⟩) := by
  cases ht : termNameB (pyLower name) <;>
    simp [splitStep, hd, is_term_tok, ht, bind, Except.bind, pure, Except.pure]

theorem splitStep_nonlabel_eq (st : SplitState) (d : String) (children : List PTree)
    (hd : (d == "label") = false) :
    splitStep st (.node d children) =
      match is_terminating_instruction (.node d children) with
      | .error e => .error e
      | .ok true => .ok ⟨st.closed ++ [st.curr ++ [PTree.node d children]], [], st.labelMap⟩
      | .ok false => .ok ⟨st.closed, st.curr ++ [PTree.node d children], st.labelMap⟩ := by
  cases hterm : is_terminating_instruction (.node d children) with
  | error e => simp [splitStep, hd, hterm, bind, Except.bind, pure, Except.pure]
  | ok b =>
      cases b <;> simp [splitStep, hd, hterm, bind, Except.bind, pure, Except.pure]

theorem splitRun_append (l1 l2 : List PTree) : ∀ st,
    splitRun (l1 ++ l2) st =
      match splitRun l1 st with
      | .error e => .error e
      | .ok st1 => splitRun l2 st1 := by
  induction l1 with
  | nil => intro st; rfl
  | cons p rest ih =>
      intro st
      show splitRun (p :: (rest ++ l2)) st = _
      rw [splitRun, splitRun]
      cases hs : splitStep st p with
      | error e => simp [bind, Except.bind, hs]
      | ok st1 => simp [bind, Except.bind, hs, ih st1]

theorem lowerStmts_append (lm : Dict Nat) (n i : Nat) (l1 l2 : List PTree) : ∀ acc,
    lowerStmts lm n i (l1 ++ l2) acc =
      match lowerStmts lm n i l1 acc with
      | .error e => .error e
      | .ok acc1 => lowerStmts lm n i l2 acc1 := by
  induction l1 with
  | nil => intro acc; rfl
  | cons p rest ih =>
      intro acc
      show lowerStmts lm n i (p :: (rest ++ l2)) acc = _
      rw [lowerStmts, lowerStmts]
      cases hs : lowerStmt lm n i acc p with
      | error e => simp [bind, Except.bind, hs]
      | ok acc1 => simp [bind, Except.bind, hs, ih acc1]

theorem convertBlocksFrom_append (lm : Dict Nat) (n : Nat) (l1 l2 : List (List PTree)) :
    ∀ i, convertBlocksFrom lm n i (l1 ++ l2) =
      match convertBlocksFrom lm n i l1 with
      | .error e => .error e
      | .ok outs1 =>
          match convertBlocksFrom lm n (i + l1.length) l2 with
          | .error e => .error e
          | .ok outs2 => .ok (outs1 ++ outs2) := by
  induction l1 with
  | nil =>
      intro i
      cases hC : convertBlocksFrom lm n i l2 <;>
        simp [convertBlocksFrom, hC]
  | cons b rest ih =>
      intro i
      cases hb : lowerBlock lm n i b with
      | error e =>
          show convertBlocksFrom lm n i (b :: (rest ++ l2)) = _
          simp [convertBlocksFrom, bind, Except.bind, hb]
      | ok ops =>
          show convertBlocksFrom lm n i (b :: (rest ++ l2)) = _
          simp only [convertBlocksFrom, bind, Except.bind, hb, List.length_cons]
          rw [ih (i + 1)]
          have harith : i + 1 + rest.length = i + (rest.length + 1) := by omega
          rw [harith]
          cases hA : convertBlocksFrom lm n (i + 1) rest <;>
            cases hB : convertBlocksFrom lm n (i + (rest.length + 1)) l2 <;>
              simp [pure, Except.pure]

/-! Refinement of the splitter against the specification model. -/

theorem splitStep_wf (p : PTree) (st : SplitState) (hp : wfStmtB p = true)
    (hne : ∀ b ∈ st.closed, b ≠ []) :
    ∃ st', splitStep st p = .ok st' ∧
      (st'.closed.length, st'.curr.length) =
        specStep (st.closed.length, st.curr.length) (classifyStmt p) ∧
      ∀ b ∈ st'.closed, b ≠ [] := by
  obtain ⟨closed, curr, lmap⟩ := st
  rcases p with ⟨t, v⟩ | ⟨d, children⟩
  · simp [wfStmtB] at hp
  rcases children with _ | ⟨c0, crest⟩
  · simp [wfStmtB] at hp
  rcases c0 with ⟨t0, v0⟩ | ⟨d0, cs0⟩
  · by_cases hd : (d == "label") = true
    · have hterm : termNameB (pyLower v0) = false := by
        simpa [wfStmtB, hd] using hp
      refine ⟨⟨(if (curr : List PTree).isEmpty then closed else closed ++ [curr]),
              [PTree.node d (PTree.tok t0 v0 :: crest)],
              dictSet lmap v0
                (if (curr : List PTree).isEmpty then closed else closed ++ [curr]).length⟩,
             ?_, ?_, ?_⟩
      · rw [splitStep_label_eq _ _ _ _ _ hd]
        simp [hterm]
      · simp only [classifyStmt, hd, if_true, specStep]
        rcases curr with _ | ⟨q, qs⟩ <;> simp
      · intro b hb
        rcases curr with _ | ⟨q, qs⟩
        · simp at hb
          exact hne b (by simpa using hb)
        · simp at hb
          rcases hb with hb | hb
          · exact hne b (by simpa using hb)
          · subst hb
            exact List.cons_ne_nil q qs
    · have hd' : (d == "label") = false := by simpa using hd
      cases ht : termNameB (pyLower v0)
      · refine ⟨⟨closed, curr ++ [PTree.node d (PTree.tok t0 v0 :: crest)], lmap⟩, ?_, ?_, ?_⟩
        · rw [splitStep_nonlabel_eq _ _ _ hd', is_term_tok, ht]
        · simp [classifyStmt, hd', ht, specStep]
        · exact hne
      · refine ⟨⟨closed ++ [curr ++ [PTree.node d (PTree.tok t0 v0 :: crest)]], [], lmap⟩,
               ?_, ?_, ?_⟩
        · rw [splitStep_nonlabel_eq _ _ _ hd', is_term_tok, ht]
        · simp [classifyStmt, hd', ht, specStep]
        · intro b hb
          simp at hb
          rcases hb with hb | hb
          · exact hne b (by simpa using hb)
          · subst hb
            simp
  · have hd' : (d == "label") = false := by simpa [wfStmtB] using hp
    refine ⟨⟨closed, curr ++ [PTree.node d (PTree.node d0 cs0 :: crest)], lmap⟩, ?_, ?_, ?_⟩
    · rw [splitStep_nonlabel_eq _ _ _ hd', is_term_nodehead]
    · simp [classifyStmt, specStep]
    · exact hne

theorem splitRun_wf : ∀ (ps : List PTree) (st : SplitState),
    ps.all wfStmtB = true → (∀ b ∈ st.closed, b ≠ []) →
    ∃ st', splitRun ps st = .ok st' ∧
      (st'.closed.length, st'.curr.length) =
        specFold (ps.map classifyStmt) (st.closed.length, st.curr.length) ∧
      ∀ b ∈ st'.closed, b ≠ [] := by
  intro ps
  induction ps with
  | nil => intro st _ hne; exact ⟨st, rfl, rfl, hne⟩
  | cons p rest ih =>
      intro st hwf hne
      rw [List.all_cons, Bool.and_eq_true] at hwf
      obtain ⟨st1, hstep, hrel, hne1⟩ := splitStep_wf p st hwf.1 hne
      obtain ⟨st', hrun, hrel2, hne2⟩ := ih st1 hwf.2 hne1
      refine ⟨st', ?_, ?_, hne2⟩
      · rw [splitRun]
        simp [bind, Except.bind, hstep, hrun]
      · rw [List.map_cons]
        rw [show specFold (classifyStmt p :: rest.map classifyStmt)
              (st.closed.length, st.curr.length) =
            specFold (rest.map classifyStmt)
              (specStep (st.closed.length, st.curr.length) (classifyStmt p)) from rfl]
        rw [← hrel]
        exact hrel2

/-! Claim theorems. -/

/-- C1: the claim states that every unconditional jump or synthesized
fallthrough carries a snapshot of exactly 17 SSA values.  Evaluating the
converter on the program `jmp l / l: ret` shows the emitted jump carries
only the 16 general-purpose block arguments: the flags entry is never
seeded at block entry, so the snapshot has 16 values, not 17. -/
theorem c1_jmp_snapshot_has_16_values :
    convert progJmp =
      .ok [[IROp.jmpOp (snapshot16 0) 1], [IROp.labelOp "l", IROp.retOp]] ∧
    (snapshot16 0).length = 16 ∧ (snapshot16 0).length ≠ 17 := by
  refine ⟨by rfl, by rfl, by decide⟩

/-- C2: the claim states that a memory-register instruction with a
supported opcode lowers successfully without touching the register
tracker.  Evaluating the converter on `add [rax], rbx` shows lowering
fails: after constructing the store operation the source calls
`set_destination_register` on the memory operand node, which raises
`X86ConversionError("Invalid register operand")`. -/
theorem c2_memreg_lowering_fails :
    convert progMemReg = .error (.x86ConversionError "Invalid register operand") := by
  rfl

/-- C3: the claim states a fallthrough is synthesized exactly when the
final instruction is neither a jump nor a return, so a ret-block is
terminal.  Evaluating the converter on `ret / l: ret` shows block 0, which
ends in `ret` and is not the last block, receives a synthesized
`FallthroughOp` with a successor edge and snapshot after its `RetOp`, so
it ends with two terminators. -/
theorem c3_ret_block_receives_fallthrough :
    convert progRetRet =
      .ok [[IROp.retOp, IROp.fallthroughOp (snapshot16 0) 1],
           [IROp.labelOp "l", IROp.retOp]] := by
  rfl

/-- C5: the claim states every failure is one of the documented
`X86ConversionError` kinds.  Evaluating the converter on
`mov rax, [eax]` (memory base register not tracked) and on
`a: jnz a / ret` (conditional jump with no tracked flags value) shows a
bare Python `KeyError` escapes in both cases. -/
theorem c5_keyerror_escapes :
    convert progUntrackedBase = .error (.keyError "eax") ∧
    convert progCondNoFlags = .error (.keyError "rflags") := by
  refine ⟨by rfl, by rfl⟩

/-- C4: every conditional jump lowered from a block that is not the
program's last block has exactly two successor edges, the else-successor
being the immediately following block, and both edges carry one identical
17-value register snapshot. -/
theorem c4_cond_jump_two_identical_snapshots (stmts : List PTree)
    (out : List (List IROp)) (h : convert stmts = .ok out) (i : Nat)
    (ops : List IROp) (hops : out.get? i = some ops) (oc : String)
    (fl : SSAVal) (tv ev : List SSAVal) (tb eb : Nat)
    (hmem : IROp.condJumpOp oc fl tv ev tb eb ∈ ops) :
    ev = tv ∧ tv.length = 17 ∧ eb = i + 1 ∧ i + 1 < out.length := by
  obtain ⟨bs, lm, hgb, hcv⟩ := convert_split stmts out h
  obtain ⟨hlen, hgood⟩ := convertBlocksFrom_spec lm bs.length bs 0 out hcv
  obtain ⟨hev, h17, heb, hni⟩ :=
    hgood i ops hops _ hmem oc fl tv ev tb eb rfl
  have hlt : i < out.length := by
    rcases List.get?_eq_some.mp hops with ⟨hw, _⟩
    exact hw
  have hne : i ≠ bs.length - 1 := by simpa using hni
  refine ⟨hev, h17, by simpa using heb, ?_⟩
  rw [hlen] at hlt ⊢
  omega

/-- C4 witness: the program `a: cmp rax, rbx / jnz a / ret`. -/
theorem c4_cond_jump_two_identical_snapshots_witness :
    snapshot17 = snapshot17 ∧ snapshot17.length = 17 ∧ 1 = 0 + 1 ∧
      0 + 1 < ([[IROp.labelOp "a",
        IROp.dataOp "SS" "cmp" [SSAVal.blockArg 0 0, SSAVal.blockArg 0 3] none none 0,
        IROp.condJumpOp "jnz" (SSAVal.opResult 0 0) snapshot17 snapshot17 0 1],
       [IROp.retOp]] : List (List IROp)).length :=
  c4_cond_jump_two_identical_snapshots progCmpJnz
    [[IROp.labelOp "a",
      IROp.dataOp "SS" "cmp" [SSAVal.blockArg 0 0, SSAVal.blockArg 0 3] none none 0,
      IROp.condJumpOp "jnz" (SSAVal.opResult 0 0) snapshot17 snapshot17 0 1],
     [IROp.retOp]]
    (by rfl) 0
    [IROp.labelOp "a",
     IROp.dataOp "SS" "cmp" [SSAVal.blockArg 0 0, SSAVal.blockArg 0 3] none none 0,
     IROp.condJumpOp "jnz" (SSAVal.opResult 0 0) snapshot17 snapshot17 0 1]
    (by decide) "jnz" (SSAVal.opResult 0 0) snapshot17 snapshot17 0 1 (by decide)

/-- C6: on well-formed statement sequences the splitter succeeds, the
number of produced blocks equals the number of splits the specification's
discipline induces from labels and terminators, and no block of the
returned partition (in particular not the last) is empty. -/
theorem c6_split_counts_and_no_empty_block (stmts : List PTree)
    (hwf : stmts.all wfStmtB = true) :
    ∃ bs lm, get_basic_blocks stmts = .ok (bs, lm) ∧
      bs.length = specBlockCount (stmts.map classifyStmt) ∧ ∀ b ∈ bs, b ≠ [] := by
  obtain ⟨st', hrun, hrel, hne⟩ := splitRun_wf stmts initSplit hwf (by simp [initSplit])
  have hrel0 : (st'.closed.length, st'.curr.length) =
      specFold (stmts.map classifyStmt) (0, 0) := hrel
  refine ⟨(if st'.curr.isEmpty then st'.closed else st'.closed ++ [st'.curr]),
          st'.labelMap, ?_, ?_, ?_⟩
  · simp [get_basic_blocks, bind, Except.bind, pure, Except.pure, hrun]
  · simp only [specBlockCount, ← hrel0]
    rcases hcur : st'.curr with _ | ⟨q, qs⟩ <;> simp
  · intro b hb
    rcases hcur : st'.curr with _ | ⟨q, qs⟩ <;> rw [hcur] at hb <;> simp at hb
    · exact hne b hb
    · rcases hb with hb | hb
      · exact hne b hb
      · subst hb
        exact List.cons_ne_nil q qs

/-- C6 witness: the program `jmp l / l: ret` is well formed; the splitter
produces as many blocks as the specification's splitting discipline. -/
theorem c6_split_counts_and_no_empty_block_witness :
    (progJmp.all wfStmtB = true) ∧
    (∃ bs lm, get_basic_blocks progJmp = .ok (bs, lm) ∧
      bs.length = specBlockCount (progJmp.map classifyStmt) ∧ ∀ b ∈ bs, b ≠ []) :=
  ⟨by decide, c6_split_counts_and_no_empty_block progJmp (by decide)⟩

/-- C7: memory-operand decoding.  With `rdx` tracked to the value `v`,
`[rdx + 4]` decodes to `(v, 4)`, `[rdx - 4]` to `(v, -4)`, the one-child
operand `[rdx]` to `(v, 0)`, and any memory node whose child count is
neither 1 nor 3 fails with `X86ConversionError("Invalid memory operand")`
(the `InvalidOperandError` of the taxonomy). -/
theorem c7_memory_operand_decoding (regs : Dict SSAVal) (v : SSAVal)
    (h : dictGet? regs "rdx" = some v) :
    get_memory_operand regs
        (.node "mem" [.tok "REG" "rdx", .tok "SIGN" "+", .tok "IMM" "4"]) = .ok (v, 4) ∧
    get_memory_operand regs
        (.node "mem" [.tok "REG" "rdx", .tok "SIGN" "-", .tok "IMM" "4"]) = .ok (v, -4) ∧
    get_memory_operand regs (.node "mem" [.tok "REG" "rdx"]) = .ok (v, 0) ∧
    ∀ d cs, cs.length ≠ 1 → cs.length ≠ 3 →
      get_memory_operand regs (.node d cs) =
        .error (.x86ConversionError "Invalid memory operand") := by
  refine ⟨?_, ?_, ?_, ?_⟩
  · rw [show get_memory_operand regs
        (.node "mem" [.tok "REG" "rdx", .tok "SIGN" "+", .tok "IMM" "4"]) =
      (match dictGet? regs "rdx" with
       | some w => Except.ok (w, 4)
       | none => Except.error (PyError.keyError "rdx")) from rfl, h]
  · rw [show get_memory_operand regs
        (.node "mem" [.tok "REG" "rdx", .tok "SIGN" "-", .tok "IMM" "4"]) =
      (match dictGet? regs "rdx" with
       | some w => Except.ok (w, -4)
       | none => Except.error (PyError.keyError "rdx")) from rfl, h]
  · rw [show get_memory_operand regs (.node "mem" [.tok "REG" "rdx"]) =
      (match dictGet? regs "rdx" with
       | some w => Except.ok (w, 0)
       | none => Except.error (PyError.keyError "rdx")) from rfl, h]
  · intro d cs h1 h3
    rcases cs with _ | ⟨a, _ | ⟨b, _ | ⟨c, _ | ⟨e, rest⟩⟩⟩⟩
    · rfl
    · exact absurd rfl h1
    · cases a <;> cases b <;> rfl
    · exact absurd rfl h3
    · cases a <;> cases b <;> cases c <;> rfl

/-- C7 witness: the fresh tracker of block 0, where `rdx` is the third
block argument. -/
theorem c7_memory_operand_decoding_witness :
    dictGet? (initRegs 0) "rdx" = some (SSAVal.blockArg 0 2) ∧
    (get_memory_operand (initRegs 0)
        (.node "mem" [.tok "REG" "rdx", .tok "SIGN" "+", .tok "IMM" "4"]) =
        .ok (SSAVal.blockArg 0 2, 4) ∧
      get_memory_operand (initRegs 0)
        (.node "mem" [.tok "REG" "rdx", .tok "SIGN" "-", .tok "IMM" "4"]) =
        .ok (SSAVal.blockArg 0 2, -4) ∧
      get_memory_operand (initRegs 0) (.node "mem" [.tok "REG" "rdx"]) =
        .ok (SSAVal.blockArg 0 2, 0) ∧
      ∀ d cs, cs.length ≠ 1 → cs.length ≠ 3 →
        get_memory_operand (initRegs 0) (.node d cs) =
          .error (.x86ConversionError "Invalid memory operand")) :=
  ⟨by rfl, c7_memory_operand_decoding (initRegs 0) (SSAVal.blockArg 0 2) (by rfl)⟩

/-- C8: lowering `cmp rbx, rcx` succeeds whenever both registers are
tracked, constructs the register-register compare, and afterwards only the
flags entry of the tracker is changed: it now holds the compare's result,
and every other name (in particular `rbx`, `rcx`, and every other
general-purpose register) looks up to the same value as before. -/
theorem c8_cmp_writes_only_flags (st : LowerState) (vb vc : SSAVal)
    (hb : dictGet? st.regs "rbx" = some vb)
    (hc : dictGet? st.regs "rcx" = some vc) :
    parse_instruction st [.tok "OPCODE" "cmp", .tok "REG" "rbx", .tok "REG" "rcx"] =
      .ok (IROp.dataOp "SS" "cmp" [vb, vc] none none st.nextOp,
        ⟨dictSet st.regs "rflags" (SSAVal.opResult st.nextOp 0), st.nextOp + 1⟩) ∧
    dictGet? (dictSet st.regs "rflags" (SSAVal.opResult st.nextOp 0)) "rflags" =
      some (SSAVal.opResult st.nextOp 0) ∧
    ∀ r, r ≠ "rflags" →
      dictGet? (dictSet st.regs "rflags" (SSAVal.opResult st.nextOp 0)) r =
        dictGet? st.regs r := by
  have h1 : get_source_register st.regs (PTree.tok "REG" "rbx") = .ok vb := by
    rw [show get_source_register st.regs (PTree.tok "REG" "rbx") =
        (match dictGet? st.regs "rbx" with
         | some r => Except.ok r
         | none => Except.error (PyError.keyError "rbx")) from rfl, hb]
  have h2 : get_source_register st.regs (PTree.tok "REG" "rcx") = .ok vc := by
    rw [show get_source_register st.regs (PTree.tok "REG" "rcx") =
        (match dictGet? st.regs "rcx" with
         | some r => Except.ok r
         | none => Except.error (PyError.keyError "rcx")) from rfl, hc]
  refine ⟨?_, dictGet?_dictSet_self _ _ _, fun r hr =>
    dictGet?_dictSet_ne _ _ _ _ (fun he => hr he.symm)⟩
  rw [show parse_instruction st [.tok "OPCODE" "cmp", .tok "REG" "rbx", .tok "REG" "rcx"] =
      parse_SS st "cmp" (PTree.tok "REG" "rbx") (PTree.tok "REG" "rcx") from rfl]
  simp [parse_SS, h1, h2, bind, Except.bind, pure, Except.pure]

/-- C8 witness: the fresh tracker of block 0. -/
theorem c8_cmp_writes_only_flags_witness :
    dictGet? (initRegs 0) "rbx" = some (SSAVal.blockArg 0 3) ∧
    dictGet? (initRegs 0) "rcx" = some (SSAVal.blockArg 0 1) ∧
    (parse_instruction ⟨initRegs 0, 0⟩
        [.tok "OPCODE" "cmp", .tok "REG" "rbx", .tok "REG" "rcx"] =
      .ok (IROp.dataOp "SS" "cmp" [SSAVal.blockArg 0 3, SSAVal.blockArg 0 1] none none 0,
        ⟨dictSet (initRegs 0) "rflags" (SSAVal.opResult 0 0), 0 + 1⟩) ∧
    dictGet? (dictSet (initRegs 0) "rflags" (SSAVal.opResult 0 0)) "rflags" =
      some (SSAVal.opResult 0 0) ∧
    ∀ r, r ≠ "rflags" →
      dictGet? (dictSet (initRegs 0) "rflags" (SSAVal.opResult 0 0)) r =
        dictGet? (initRegs 0) r) :=
  ⟨by rfl, by rfl,
    c8_cmp_writes_only_flags ⟨initRegs 0, 0⟩ (SSAVal.blockArg 0 3) (SSAVal.blockArg 0 1)
      (by rfl) (by rfl)⟩

/-! Machinery for the dangling-conditional-jump claim. -/

theorem cond_not_jmp (s : String) (h : COND_JUMP_NAMES.contains s = true) :
    (s == "jmp") = false := by
  cases he : (s == "jmp")
  · rfl
  · have hs : s = "jmp" := by simpa using he
    subst hs
    exact absurd h (by decide)

theorem parse_jump_two_operand_eq (lm : Dict Nat) (n : Nat) (st : LowerState)
    (t opv ttype lab : String) (i : Nat) :
    parse_jump lm n st [.tok t opv, .tok ttype lab] i =
      if (ttype != "LABELNAME") = true then
        .error (.x86ConversionError "Jump instruction must have label operand")
      else
        match dictGet? lm lab with
        | none =>
            .error (.x86ConversionError
              ("Label " ++ lab ++ " does not exist in the program"))
        | some target =>
            if ((pyLower opv) == "jmp") = true then
              .ok (IROp.jmpOp (dictValues st.regs) target, ⟨st.regs, st.nextOp + 1⟩)
            else if (i == n - 1) = true then
              .error (.x86ConversionError
                "Conditional jump at the end of program (has no successor)")
            else if COND_JUMP_NAMES.contains (pyLower opv) = true then
              match dictGet? st.regs "rflags" with
              | none => .error (.keyError "rflags")
              | some fl =>
                  .ok (IROp.condJumpOp (pyLower opv) fl (dictValues st.regs)
                    (dictValues st.regs) target (i + 1), ⟨st.regs, st.nextOp + 1⟩)
            else .error (.keyError (pyLower opv)) := rfl

theorem parse_jump_dangling (lm : Dict Nat) (n : Nat) (st : LowerState)
    (t opv lab : String) (k : Nat)
    (hop : COND_JUMP_NAMES.contains (pyLower opv) = true)
    (hk : dictGet? lm lab = some k) :
    parse_jump lm n st [.tok t opv, .tok "LABELNAME" lab] (n - 1) =
      .error (.x86ConversionError
        "Conditional jump at the end of program (has no successor)") := by
  rw [parse_jump_two_operand_eq, if_neg (by decide)]
  split
  · simp_all
  · rename_i target heq
    rw [if_neg (by simp [cond_not_jmp _ hop]), if_pos (by simp)]

theorem parse_jump_last_error (lm : Dict Nat) (n : Nat) (st : LowerState)
    (t opv : String) (args : List PTree) (i : Nat)
    (hop : COND_JUMP_NAMES.contains (pyLower opv) = true)
    (hi : (i == n - 1) = true) :
    ∃ e, parse_jump lm n st (.tok t opv :: args) i = .error e := by
  rcases args with _ | ⟨o1, rest2⟩
  · exact ⟨_, rfl⟩
  rcases rest2 with _ | ⟨o2, rest3⟩
  swap
  · exact ⟨_, rfl⟩
  rcases o1 with ⟨ttype, lab⟩ | ⟨d2, cs2⟩
  swap
  · exact ⟨_, rfl⟩
  rw [parse_jump_two_operand_eq]
  by_cases h1 : (ttype != "LABELNAME") = true
  · rw [if_pos h1]
    exact ⟨_, rfl⟩
  rw [if_neg h1]
  cases hlab : dictGet? lm lab with
  | none => exact ⟨_, rfl⟩
  | some target =>
      refine ⟨.x86ConversionError
        "Conditional jump at the end of program (has no successor)", ?_⟩
      change (if ((pyLower opv) == "jmp") = true then _ else _) = _
      rw [if_neg (by simp [cond_not_jmp _ hop]), if_pos hi]

theorem lowerStmt_jump_error (lm : Dict Nat) (n i : Nat) (acc : BlockAcc)
    (d t opv : String) (args : List PTree) (e : PyError)
    (hd : (d == "label") = false)
    (hop : COND_JUMP_NAMES.contains (pyLower opv) = true)
    (hp : parse_jump lm n ⟨acc.regs, acc.nextOp⟩ (.tok t opv :: args) i = .error e) :
    lowerStmt lm n i acc (.node d (.tok t opv :: args)) = .error e := by
  have hj : is_jump_instruction (.node d (.tok t opv :: args)) = .ok true := by
    rw [is_jump_tok]
    have hm : pyLower opv ∈ COND_JUMP_NAMES := by simpa using hop
    simp [hm]
  simp [lowerStmt, hd, hj, hp, bind, Except.bind]

theorem lowerStmts_error_last (lm : Dict Nat) (n i : Nat) (rest : List PTree)
    (p : PTree) (acc acc1 : BlockAcc) (e : PyError)
    (hpre : lowerStmts lm n i rest acc = .ok acc1)
    (hstep : lowerStmt lm n i acc1 p = .error e) :
    lowerStmts lm n i (rest ++ [p]) acc = .error e := by
  rw [lowerStmts_append, hpre]
  show lowerStmts lm n i [p] acc1 = _
  simp [lowerStmts, hstep, bind, Except.bind]

theorem lowerStmts_last_always_error (lm : Dict Nat) (n i : Nat) (p : PTree)
    (hfail : ∀ acc1, ∃ e, lowerStmt lm n i acc1 p = .error e) :
    ∀ rest acc, ∃ e, lowerStmts lm n i (rest ++ [p]) acc = .error e := by
  intro rest acc
  rw [lowerStmts_append]
  cases hpre : lowerStmts lm n i rest acc with
  | error e => exact ⟨e, rfl⟩
  | ok acc1 =>
      obtain ⟨e, he⟩ := hfail acc1
      refine ⟨e, ?_⟩
      show lowerStmts lm n i [p] acc1 = _
      simp [lowerStmts, he, bind, Except.bind]

theorem lowerBlock_error (lm : Dict Nat) (n i : Nat) (stmts : List PTree)
    (e : PyError)
    (h : lowerStmts lm n i stmts ⟨initRegs i, [], false, 0⟩ = .error e) :
    lowerBlock lm n i stmts = .error e := by
  simp [lowerBlock, h, bind, Except.bind]

theorem convertBlocksFrom_last_error (lm : Dict Nat) (n : Nat)
    (front : List (List PTree)) (lastb : List PTree) (i : Nat)
    (hfail : ∃ e, lowerBlock lm n (i + front.length) lastb = .error e) :
    ∃ e, convertBlocksFrom lm n i (front ++ [lastb]) = .error e := by
  rw [convertBlocksFrom_append]
  cases hpre : convertBlocksFrom lm n i front with
  | error e => exact ⟨e, rfl⟩
  | ok outs =>
      obtain ⟨e, he⟩ := hfail
      refine ⟨e, ?_⟩
      show (match convertBlocksFrom lm n (i + front.length) [lastb] with
            | Except.error e => Except.error e
            | Except.ok outs2 => Except.ok (outs ++ outs2)) = Except.error e
      rw [show convertBlocksFrom lm n (i + front.length) [lastb] = Except.error e from by
        simp [convertBlocksFrom, he, bind, Except.bind]]

theorem convertBlocksFrom_last_error_exact (lm : Dict Nat) (n : Nat)
    (front : List (List PTree)) (lastb : List PTree) (i : Nat)
    (outs : List (List IROp)) (e : PyError)
    (hpre : convertBlocksFrom lm n i front = .ok outs)
    (hlast : lowerBlock lm n (i + front.length) lastb = .error e) :
    convertBlocksFrom lm n i (front ++ [lastb]) = .error e := by
  rw [convertBlocksFrom_append, hpre]
  show (match convertBlocksFrom lm n (i + front.length) [lastb] with
        | Except.error e => Except.error e
        | Except.ok outs2 => Except.ok (outs ++ outs2)) = Except.error e
  rw [show convertBlocksFrom lm n (i + front.length) [lastb] = Except.error e from by
    simp [convertBlocksFrom, hlast, bind, Except.bind]]

theorem convert_error_of (stmts : List PTree) (bs : List (List PTree))
    (lm : Dict Nat) (e : PyError)
    (hgb : get_basic_blocks stmts = .ok (bs, lm))
    (hc : convertBlocksFrom lm bs.length 0 bs = .error e) :
    convert stmts = .error e := by
  simp [convert, hgb, hc, bind, Except.bind]

theorem convert_error_gb (stmts : List PTree) (e : PyError)
    (hgb : get_basic_blocks stmts = .error e) : convert stmts = .error e := by
  simp [convert, hgb, bind, Except.bind]

theorem get_basic_blocks_eq (stmts : List PTree) :
    get_basic_blocks stmts =
      match splitRun stmts initSplit with
      | .error e => .error e
      | .ok st =>
          .ok (if st.curr.isEmpty then st.closed else st.closed ++ [st.curr],
               st.labelMap) := by
  cases h : splitRun stmts initSplit <;>
    simp [get_basic_blocks, h, bind, Except.bind, pure, Except.pure]

theorem splitStep_cond_jump (st : SplitState) (d t opv : String) (args : List PTree)
    (hd : (d == "label") = false)
    (hop : COND_JUMP_NAMES.contains (pyLower opv) = true) :
    splitStep st (.node d (.tok t opv :: args)) =
      .ok ⟨st.closed ++ [st.curr ++ [.node d (.tok t opv :: args)]], [], st.labelMap⟩ := by
  rw [splitStep_nonlabel_eq _ _ _ hd, is_term_tok]
  have ht : termNameB (pyLower opv) = true := by
    have hm : pyLower opv ∈ COND_JUMP_NAMES := by simpa using hop
    simp [termNameB, hm]
  rw [ht]

/-- C9: an input whose final statement is a conditional jump never
converts: the terminator closes its block, the trailing empty block is
discarded, so the jump's block is the program's last block.  Conversion
always fails (first conjunct); and whenever the jump itself is reached —
its target label resolves and all earlier lowering succeeds — the failure
is exactly the dangling-conditional-jump error (second conjunct). -/
theorem c9_trailing_cond_jump_fails (pre : List PTree) (t opv lab : String)
    (hop : COND_JUMP_NAMES.contains (pyLower opv) = true) :
    (∃ e, convert (pre ++
        [PTree.node "instruction" [.tok t opv, .tok "LABELNAME" lab]]) = .error e) ∧
    (∀ bs lm k rest donePref acc,
      get_basic_blocks (pre ++
          [PTree.node "instruction" [.tok t opv, .tok "LABELNAME" lab]]) = .ok (bs, lm) →
      bs.getLast? = some (rest ++
          [PTree.node "instruction" [.tok t opv, .tok "LABELNAME" lab]]) →
      dictGet? lm lab = some k →
      convertBlocksFrom lm bs.length 0 bs.dropLast = .ok donePref →
      lowerStmts lm bs.length (bs.length - 1) rest
          ⟨initRegs (bs.length - 1), [], false, 0⟩ = .ok acc →
      convert (pre ++
          [PTree.node "instruction" [.tok t opv, .tok "LABELNAME" lab]]) =
        .error (.x86ConversionError
          "Conditional jump at the end of program (has no successor)")) := by
  constructor
  · -- conversion always fails
    cases hpre : splitRun pre initSplit with
    | error e =>
        refine ⟨e, convert_error_gb _ _ ?_⟩
        rw [get_basic_blocks_eq, splitRun_append, hpre]
    | ok stP =>
        have hstep := splitStep_cond_jump stP "instruction" t opv
          [PTree.tok "LABELNAME" lab] (by decide) hop
        have hsplit : splitRun (pre ++
            [PTree.node "instruction" [.tok t opv, .tok "LABELNAME" lab]]) initSplit =
            .ok ⟨stP.closed ++
              [stP.curr ++ [PTree.node "instruction" [.tok t opv, .tok "LABELNAME" lab]]],
              [], stP.labelMap⟩ := by
          rw [splitRun_append, hpre]
          show splitRun [PTree.node "instruction" [.tok t opv, .tok "LABELNAME" lab]] stP = _
          rw [splitRun]
          simp [bind, Except.bind, hstep, splitRun]
        have hgb : get_basic_blocks (pre ++
            [PTree.node "instruction" [.tok t opv, .tok "LABELNAME" lab]]) =
            .ok (stP.closed ++
              [stP.curr ++ [PTree.node "instruction" [.tok t opv, .tok "LABELNAME" lab]]],
              stP.labelMap) := by
          rw [get_basic_blocks_eq, hsplit]
          rfl
        set bs := stP.closed ++
          [stP.curr ++ [PTree.node "instruction" [.tok t opv, .tok "LABELNAME" lab]]] with hbs
        have hn : bs.length = stP.closed.length + 1 := by simp [hbs]
        have hfailStmt : ∀ acc1, ∃ e,
            lowerStmt stP.labelMap bs.length (stP.closed.length) acc1
              (PTree.node "instruction" [.tok t opv, .tok "LABELNAME" lab]) = .error e := by
          intro acc1
          obtain ⟨e, he⟩ := parse_jump_last_error stP.labelMap bs.length
            ⟨acc1.regs, acc1.nextOp⟩ t opv [PTree.tok "LABELNAME" lab]
            (stP.closed.length) hop (by simp [hn])
          exact ⟨e, lowerStmt_jump_error _ _ _ _ _ _ _ _ _ (by decide) hop he⟩
        obtain ⟨e, he⟩ := lowerStmts_last_always_error stP.labelMap bs.length
          (stP.closed.length) _ hfailStmt stP.curr ⟨initRegs (stP.closed.length), [], false, 0⟩
        have hblock : ∃ e, lowerBlock stP.labelMap bs.length
            (0 + stP.closed.length)
            (stP.curr ++ [PTree.node "instruction" [.tok t opv, .tok "LABELNAME" lab]]) =
            .error e := by
          refine ⟨e, ?_⟩
          have : (0 : Nat) + stP.closed.length = stP.closed.length := by omega
          rw [this]
          exact lowerBlock_error _ _ _ _ _ he
        obtain ⟨e2, he2⟩ := convertBlocksFrom_last_error stP.labelMap bs.length
          stP.closed _ 0 hblock
        exact ⟨e2, convert_error_of _ _ _ _ hgb he2⟩
  · -- the reached jump fails with the dangling error
    intro bs lm k rest donePref acc hgb hlast hk hpref hacc
    have hne : bs ≠ [] := by
      intro hb
      rw [hb] at hlast
      simp at hlast
    have hlast' : bs.getLast hne = rest ++
        [PTree.node "instruction" [.tok t opv, .tok "LABELNAME" lab]] := by
      have := List.getLast?_eq_getLast bs hne
      rw [this] at hlast
      injection hlast
    have hbs : bs.dropLast ++ [rest ++
        [PTree.node "instruction" [.tok t opv, .tok "LABELNAME" lab]]] = bs := by
      rw [← hlast']
      exact List.dropLast_append_getLast hne
    have hpj : parse_jump lm bs.length ⟨acc.regs, acc.nextOp⟩
        [.tok t opv, .tok "LABELNAME" lab] (bs.length - 1) =
        .error (.x86ConversionError
          "Conditional jump at the end of program (has no successor)") :=
      parse_jump_dangling lm bs.length ⟨acc.regs, acc.nextOp⟩ t opv lab k hop hk
    have hstep : lowerStmt lm bs.length (bs.length - 1) acc
        (PTree.node "instruction" [.tok t opv, .tok "LABELNAME" lab]) =
        .error (.x86ConversionError
          "Conditional jump at the end of program (has no successor)") :=
      lowerStmt_jump_error _ _ _ _ _ _ _ _ _ (by decide) hop hpj
    have hstmts := lowerStmts_error_last lm bs.length (bs.length - 1) rest _ _ _ _ hacc hstep
    have hblock := lowerBlock_error lm bs.length (bs.length - 1) _ _ hstmts
    have hblock' : lowerBlock lm bs.length (0 + bs.dropLast.length)
        (rest ++ [PTree.node "instruction" [.tok t opv, .tok "LABELNAME" lab]]) =
        .error (.x86ConversionError
          "Conditional jump at the end of program (has no successor)") := by
      rw [List.length_dropLast]
      simpa using hblock
    have hcbf : convertBlocksFrom lm bs.length 0 bs =
        .error (.x86ConversionError
          "Conditional jump at the end of program (has no successor)") := by
      nth_rewrite 2 [← hbs]
      exact convertBlocksFrom_last_error_exact lm bs.length bs.dropLast _ 0 donePref _
        hpref hblock'
    exact convert_error_of _ _ _ _ hgb hcbf

/-- C9 witness: the program `a: / jnz a` whose final statement is the
conditional jump. -/
theorem c9_trailing_cond_jump_fails_witness :
    (∃ e, convert progDangling = .error e) ∧
    convert progDangling = .error (.x86ConversionError
      "Conditional jump at the end of program (has no successor)") :=
  ⟨(c9_trailing_cond_jump_fails [labelN "a"] "OPCODE" "jnz" "a" (by decide)).1,
   (c9_trailing_cond_jump_fails [labelN "a"] "OPCODE" "jnz" "a" (by decide)).2
     [[labelN "a", PTree.node "instruction"
        [.tok "OPCODE" "jnz", .tok "LABELNAME" "a"]]]
     [("a", 0)] 0 [labelN "a"] []
     ⟨initRegs 0, [IROp.labelOp "a"], false, 0⟩
     (by rfl) (by rfl) (by rfl) (by rfl) (by rfl)⟩

/-! Machinery for the duplicate-label claim. -/

theorem splitStep_nondef_preserve (st st' : SplitState) (p : PTree) (n : String)
    (h : splitStep st p = .ok st') (hnd : definesLabelB n p = false) :
    dictGet? st'.labelMap n = dictGet? st.labelMap n := by
  rcases p with ⟨t, v⟩ | ⟨d, children⟩
  · exact absurd h (by simp [splitStep])
  by_cases hd : (d == "label") = true
  · rcases children with _ | ⟨c0, crest⟩
    · rw [show splitStep st (.node d []) = .error .indexError from by
        simp [splitStep, hd, bind, Except.bind]] at h
      exact Except.noConfusion h
    rcases c0 with ⟨t0, name⟩ | ⟨d0, cs0⟩
    · have hname : (name == n) = false := by
        simpa [definesLabelB, hd] using hnd
      have hne : name ≠ n := by
        intro he
        subst he
        simp at hname
      rw [splitStep_label_eq _ _ _ _ _ hd] at h
      injection h with h
      subst h
      cases htn : termNameB (pyLower name) <;>
        simp [htn] <;>
          exact dictGet?_dictSet_ne _ _ _ _ hne
    · rw [show splitStep st (.node d (PTree.node d0 cs0 :: crest)) =
          .error (.x86ConversionError "Invalid code structure") from by
        simp [splitStep, hd, bind, Except.bind]] at h
      exact Except.noConfusion h
  · have hd' : (d == "label") = false := by simpa using hd
    rw [splitStep_nonlabel_eq _ _ _ hd'] at h
    cases hterm : is_terminating_instruction (.node d children) with
    | error e =>
        rw [hterm] at h
        exact Except.noConfusion h
    | ok b =>
        rw [hterm] at h
        cases b <;>
          · injection h with h
            subst h
            rfl

theorem splitRun_nondef_preserve : ∀ (ps : List PTree) (st st' : SplitState)
    (n : String), splitRun ps st = .ok st' →
    (ps.all (fun p => !definesLabelB n p) = true) →
    dictGet? st'.labelMap n = dictGet? st.labelMap n := by
  intro ps
  induction ps with
  | nil =>
      intro st st' n h _
      injection h with h
      subst h
      rfl
  | cons p rest ih =>
      intro st st' n h hall
      rw [List.all_cons, Bool.and_eq_true] at hall
      have hnd : definesLabelB n p = false := by simpa using hall.1
      rw [splitRun] at h
      cases hs : splitStep st p with
      | error e => rw [hs] at h; exact Except.noConfusion h
      | ok st1 =>
          rw [hs] at h
          simp only [bind, Except.bind] at h
          rw [ih st1 st' n h hall.2, splitStep_nondef_preserve st st1 p n hs hnd]

/-- C10: duplicate label definitions are not rejected: the label step
itself always succeeds and records the current block index, overwriting
any earlier entry, and as long as no later statement defines the same
name again, the final label table maps the name to the index recorded at
its last definition — the earlier mapping is lost. -/
theorem c10_duplicate_label_overwrites (pre post : List PTree) (t n : String)
    (more : List PTree)
    (hpost : post.all (fun p => !definesLabelB n p) = true) :
    (∀ st1, splitRun pre initSplit = .ok st1 →
      ∃ st2, splitStep st1 (PTree.node "label" (PTree.tok t n :: more)) = .ok st2 ∧
        dictGet? st2.labelMap n =
          some (if st1.curr.isEmpty then st1.closed.length
                else st1.closed.length + 1)) ∧
    (∀ bs lm st1,
      get_basic_blocks (pre ++ PTree.node "label" (PTree.tok t n :: more) :: post) =
        .ok (bs, lm) →
      splitRun pre initSplit = .ok st1 →
      dictGet? lm n =
        some (if st1.curr.isEmpty then st1.closed.length
              else st1.closed.length + 1)) := by
  constructor
  · intro st1 h1
    refine ⟨_, splitStep_label_eq st1 "label" t n more (by decide), ?_⟩
    cases htn : termNameB (pyLower n) <;>
      cases hc : st1.curr.isEmpty <;>
        simp [htn, hc, dictGet?_dictSet_self]
  · intro bs lm st1 hgb h1
    cases htn : termNameB (pyLower n)
    · have hstep : splitStep st1 (PTree.node "label" (PTree.tok t n :: more)) =
          .ok ⟨(if st1.curr.isEmpty then st1.closed else st1.closed ++ [st1.curr]),
            [PTree.node "label" (PTree.tok t n :: more)],
            dictSet st1.labelMap n
              (if st1.curr.isEmpty then st1.closed else st1.closed ++ [st1.curr]).length⟩ := by
        rw [splitStep_label_eq _ _ _ _ _ (by decide)]
        simp [htn]
      have hrun : splitRun (pre ++ PTree.node "label" (PTree.tok t n :: more) :: post)
          initSplit =
          splitRun post ⟨(if st1.curr.isEmpty then st1.closed else st1.closed ++ [st1.curr]),
            [PTree.node "label" (PTree.tok t n :: more)],
            dictSet st1.labelMap n
              (if st1.curr.isEmpty then st1.closed else st1.closed ++ [st1.curr]).length⟩ := by
        rw [splitRun_append, h1]
        show splitRun (PTree.node "label" (PTree.tok t n :: more) :: post) st1 = _
        rw [splitRun]
        simp [bind, Except.bind, hstep]
      rw [get_basic_blocks_eq, hrun] at hgb
      cases hfin : splitRun post _ with
      | error e => rw [hfin] at hgb; exact Except.noConfusion hgb
      | ok stF =>
          rw [hfin] at hgb
          simp only [Except.ok.injEq, Prod.mk.injEq] at hgb
          obtain ⟨hbs2, hlm⟩ := hgb
          rw [← hlm, splitRun_nondef_preserve post _ stF n hfin hpost]
          cases hc : st1.curr.isEmpty <;> simp [hc, dictGet?_dictSet_self]
    · have hstep : splitStep st1 (PTree.node "label" (PTree.tok t n :: more)) =
          .ok ⟨(if st1.curr.isEmpty then st1.closed else st1.closed ++ [st1.curr]) ++
              [[PTree.node "label" (PTree.tok t n :: more)]], [],
            dictSet st1.labelMap n
              (if st1.curr.isEmpty then st1.closed else st1.closed ++ [st1.curr]).length⟩ := by
        rw [splitStep_label_eq _ _ _ _ _ (by decide)]
        simp [htn]
      have hrun : splitRun (pre ++ PTree.node "label" (PTree.tok t n :: more) :: post)
          initSplit =
          splitRun post ⟨(if st1.curr.isEmpty then st1.closed else st1.closed ++ [st1.curr]) ++
              [[PTree.node "label" (PTree.tok t n :: more)]], [],
            dictSet st1.labelMap n
              (if st1.curr.isEmpty then st1.closed else st1.closed ++ [st1.curr]).length⟩ := by
        rw [splitRun_append, h1]
        show splitRun (PTree.node "label" (PTree.tok t n :: more) :: post) st1 = _
        rw [splitRun]
        simp [bind, Except.bind, hstep]
      rw [get_basic_blocks_eq, hrun] at hgb
      cases hfin : splitRun post _ with
      | error e => rw [hfin] at hgb; exact Except.noConfusion hgb
      | ok stF =>
          rw [hfin] at hgb
          simp only [Except.ok.injEq, Prod.mk.injEq] at hgb
          obtain ⟨hbs2, hlm⟩ := hgb
          rw [← hlm, splitRun_nondef_preserve post _ stF n hfin hpost]
          cases hc : st1.curr.isEmpty <;> simp [hc, dictGet?_dictSet_self]

/-- C10 witness: the program `a: ret / a: ret`, whose label table ends up
mapping the duplicated name to the block of its second definition. -/
theorem c10_duplicate_label_overwrites_witness :
    (∃ st2, splitStep ⟨[[labelN "a", instrN "ret" []]], [], [("a", 0)]⟩
        (PTree.node "label" (PTree.tok "LABELNAME" "a" :: [PTree.tok ":" ":"])) =
        .ok st2 ∧ dictGet? st2.labelMap "a" = some 1) ∧
    dictGet? [("a", 1)] "a" = some 1 :=
  ⟨(c10_duplicate_label_overwrites [labelN "a", instrN "ret" []] [instrN "ret" []]
      "LABELNAME" "a" [PTree.tok ":" ":"] (by decide)).1
      ⟨[[labelN "a", instrN "ret" []]], [], [("a", 0)]⟩ (by rfl),
   (c10_duplicate_label_overwrites [labelN "a", instrN "ret" []] [instrN "ret" []]
      "LABELNAME" "a" [PTree.tok ":" ":"] (by decide)).2
      [[labelN "a", instrN "ret" []], [labelN "a", instrN "ret" []]] [("a", 1)]
      ⟨[[labelN "a", instrN "ret" []]], [], [("a", 0)]⟩ (by rfl) (by rfl)⟩

end X86
